import Mathlib

/-!
Verification of the LLM routing core of the `agent_factory` repository.

The development shallowly embeds, in Lean 4:

* `core/response_normalizer.py` — JSON extraction (`_extract_json`, including a
  character-level model of `json.loads` and of the two regex fallbacks), schema
  coercion (`_coerce_to_schema`), validation (`validate_schema`) and
  `normalize`;
* `core/ai_router.py` — session history (`add_message`, `_compress_history`)
  and provider availability (`_is_available`);
* `core/llm_router.py` — provider availability (`_is_provider_available`), the
  budget guard (`_check_budget`, `_record_cost`), the usage log (`_log_usage`),
  the escalation chain construction (`_append_escalation_chain`) and the main
  routing loop (`route`).

Python text is modelled as `List Char` (a Python `str` is a sequence of code
points); Python dicts are modelled as association lists whose assignment
operator updates an existing key in place and appends a fresh key at the end,
matching insertion-ordered Python dicts.  Machine clock values are integers and
USD amounts are exact rationals.  Network calls made by `route` are modelled by
an oracle `String → CallResult` giving each provider's behaviour for the one
request under consideration.
-/

namespace AgentFactory

/-! ## Association lists (Python `dict` model) -/

/-- `d.get(k)`: first binding of `k`, if any. -/
def alookup {α : Type} : List (String × α) → String → Option α
  | [], _ => none
  | (k, v) :: rest, key => if k = key then some v else alookup rest key

/-- `d[k] = v`: update the first binding of `k` in place, or append a new
binding at the end (insertion-ordered Python dict assignment). -/
def dSet {α : Type} : List (String × α) → String → α → List (String × α)
  | [], key, v => [(key, v)]
  | (k, w) :: rest, key, v =>
    if k = key then (k, v) :: rest else (k, w) :: dSet rest key v

/-- `d.pop(k, None)`: remove every binding of `k`. -/
def dErase {α : Type} : List (String × α) → String → List (String × α)
  | [], _ => []
  | (k, w) :: rest, key => if k = key then dErase rest key else (k, w) :: dErase rest key

/-! ## Characters and whitespace -/

/-- The `\x7b` character (written via its code point to keep it out of string
literals). -/
def lbrace : Char := Char.ofNat 123

/-- The `\x7d` character. -/
def rbrace : Char := Char.ofNat 125

/-- The double-quote character. -/
def dquote : Char := Char.ofNat 34

/-- The backslash character. -/
def bslash : Char := Char.ofNat 92

/-- The backtick character. -/
def btick : Char := Char.ofNat 96

/-- The single-quote character. -/
def squote : Char := Char.ofNat 39

/-- Whitespace as `str.strip()` and the regex class `\s` see it (the ASCII
whitespace characters; further Unicode whitespace is not modelled). -/
def pyWs (c : Char) : Bool :=
  c = ' ' || c = Char.ofNat 9 || c = Char.ofNat 10 || c = Char.ofNat 13 ||
  c = Char.ofNat 11 || c = Char.ofNat 12

/-- Whitespace skipped by `json.loads` (exactly space, tab, newline, carriage
return). -/
def jsonWs (c : Char) : Bool :=
  c = ' ' || c = Char.ofNat 9 || c = Char.ofNat 10 || c = Char.ofNat 13

/-- `text.strip()`: drop leading and trailing whitespace. -/
def stripChars (cs : List Char) : List Char :=
  (cs.dropWhile pyWs).rdropWhile pyWs

/-! ## Python/JSON values

`json.loads` produces `None`, `bool`, `int`, `float`, `str`, `list` and `dict`
values; `Json` is their model.  JSON numbers with a fraction or exponent become
Python floats, modelled as exact rationals (binary rounding of IEEE floats is
not modelled; no claim depends on it). -/

inductive Json : Type where
  | null : Json
  | bool : Bool → Json
  | int : Int → Json
  | float : ℚ → Json
  | str : String → Json
  | arr : List Json → Json
  | obj : List (String × Json) → Json
deriving Repr

/-- Python `==` on `Json` values: structural on scalars and lists (lists
compare index-wise, so order matters), key-order-insensitive on dicts, with
Python's cross-type numeric equalities (`True == 1`, `1 == 1.0`).  The dict
rule assumes the usual unique-key dicts produced by `json.loads`. -/
inductive PyEq : Json → Json → Prop where
  | null : PyEq .null .null
  | bool (b : Bool) : PyEq (.bool b) (.bool b)
  | int (n : Int) : PyEq (.int n) (.int n)
  | float (q : ℚ) : PyEq (.float q) (.float q)
  | str (s : String) : PyEq (.str s) (.str s)
  | intFloat (n : Int) (q : ℚ) : (n : ℚ) = q → PyEq (.int n) (.float q)
  | floatInt (q : ℚ) (n : Int) : (n : ℚ) = q → PyEq (.float q) (.int n)
  | boolInt (b : Bool) (n : Int) : (if b then (1 : Int) else 0) = n → PyEq (.bool b) (.int n)
  | intBool (n : Int) (b : Bool) : (if b then (1 : Int) else 0) = n → PyEq (.int n) (.bool b)
  | boolFloat (b : Bool) (q : ℚ) : (if b then (1 : ℚ) else 0) = q → PyEq (.bool b) (.float q)
  | floatBool (q : ℚ) (b : Bool) : (if b then (1 : ℚ) else 0) = q → PyEq (.float q) (.bool b)
  | arr {a b : List Json} : a.length = b.length →
      (∀ i (h1 : i < a.length) (h2 : i < b.length), PyEq (a.get ⟨i, h1⟩) (b.get ⟨i, h2⟩)) →
      PyEq (.arr a) (.arr b)
  | obj {a b : List (String × Json)} : a.length = b.length →
      (∀ k v, (k, v) ∈ a → (alookup b k).isSome = true) →
      (∀ k v w, (k, v) ∈ a → alookup b k = some w → PyEq v w) →
      PyEq (.obj a) (.obj b)

/-- `type(x).__name__` for the values `json.loads` can produce. -/
def pyTypeName : Json → String
  | .null => "NoneType"
  | .bool _ => "bool"
  | .int _ => "int"
  | .float _ => "float"
  | .str _ => "str"
  | .arr _ => "list"
  | .obj _ => "dict"

/-- A decimal-ish rendering of a rational, standing in for Python float
`repr` (whose shortest-roundtrip formatting is not modelled; no claim
depends on the exact digits). -/
def ratRepr (q : ℚ) : String :=
  if q.den = 1 then toString q.num ++ ".0" else toString q.num ++ "/" ++ toString q.den

/-- Python `repr()` on `Json` values (string escaping inside `repr` of
containers is not modelled; no claim depends on it). -/
def pyRepr (j : Json) : String :=
  match j with
  | .null => "None"
  | .bool true => "True"
  | .bool false => "False"
  | .int n => toString n
  | .float q => ratRepr q
  | .str s => String.mk [squote] ++ s ++ String.mk [squote]
  | .arr l => "[" ++ String.intercalate ", " (l.attach.map (fun x => pyRepr x.1)) ++ "]"
  | .obj fs =>
      String.mk [lbrace] ++
        String.intercalate ", "
          (fs.attach.map (fun x => String.mk [squote] ++ x.1.1 ++ String.mk [squote] ++ ": " ++ pyRepr x.1.2)) ++
      String.mk [rbrace]
termination_by sizeOf j
decreasing_by
  · have := List.sizeOf_lt_of_mem x.2
    simp only [Json.arr.sizeOf_spec]
    omega
  · have h1 := List.sizeOf_lt_of_mem x.2
    have h2 : sizeOf x.1.2 < sizeOf x.1 := by
      obtain ⟨a, b⟩ := x.1
      simp only [Prod.mk.sizeOf_spec]
      omega
    simp only [Json.obj.sizeOf_spec]
    omega

/-- Python `str()` on `Json` values: a `str` is returned unchanged, everything
else is rendered via `repr`. -/
def pyStr (j : Json) : String :=
  match j with
  | .str s => s
  | _ => pyRepr j

/-! ## `json.loads`

A character-level model of the strict JSON decoder, written with explicit fuel
(the fuel passed by `jsonLoads` always suffices for the recursion depth, which
is bounded by twice the input length).  `NaN`/`Infinity`, which the Python
decoder also accepts, produce IEEE non-finite floats and are not modelled. -/

/-- Skip decoder whitespace. -/
def skipWs (cs : List Char) : List Char := cs.dropWhile jsonWs

/-- Value of a hex digit. -/
def hexVal (c : Char) : Option Nat :=
  if '0' ≤ c ∧ c ≤ '9' then some (c.toNat - 48)
  else if 'a' ≤ c ∧ c ≤ 'f' then some (c.toNat - 87)
  else if 'A' ≤ c ∧ c ≤ 'F' then some (c.toNat - 55)
  else none

/-- Translate a one-character JSON escape. -/
def unescape (c : Char) : Option Char :=
  if c = dquote then some dquote
  else if c = bslash then some bslash
  else if c = '/' then some '/'
  else if c = 'b' then some (Char.ofNat 8)
  else if c = 'f' then some (Char.ofNat 12)
  else if c = 'n' then some (Char.ofNat 10)
  else if c = 'r' then some (Char.ofNat 13)
  else if c = 't' then some (Char.ofNat 9)
  else none

/-- Body of a JSON string, after the opening quote; returns the decoded string
and the rest of the input after the closing quote.  Surrogate-pair `\uXXXX`
recombination is not modelled (a lone code point is produced instead). -/
def parseStringBody : Nat → List Char → List Char → Option (String × List Char)
  | 0, _, _ => none
  | _ + 1, _, [] => none
  | f + 1, acc, c :: rest =>
    if c = dquote then some (String.mk acc.reverse, rest)
    else if c = bslash then
      match rest with
      | [] => none
      | e :: rest2 =>
        if e = 'u' then
          match rest2 with
          | a :: b :: c2 :: d :: rest3 =>
            match hexVal a, hexVal b, hexVal c2, hexVal d with
            | some x, some y, some z, some w =>
                parseStringBody f (Char.ofNat (((x * 16 + y) * 16 + z) * 16 + w) :: acc) rest3
            | _, _, _, _ => none
          | _ => none
        else
          match unescape e with
          | some d => parseStringBody f (d :: acc) rest2
          | none => none
    else if c.toNat < 32 then none
    else parseStringBody f (c :: acc) rest

/-- Digits to a natural number. -/
def digitsToNat (ds : List Char) : Nat :=
  ds.foldl (fun a c => a * 10 + (c.toNat - 48)) 0

/-- The mantissa of a JSON number from its sign, integer digits and fraction
digits. -/
def numMant (neg : Bool) (ip fracDigits : List Char) : ℚ :=
  (if neg then -1 else 1) *
    ((digitsToNat ip : ℚ) + (digitsToNat fracDigits : ℚ) / (10 : ℚ) ^ fracDigits.length)

/-- The exponent part of a JSON number and the resulting value: on `e`/`E`, an
optional sign and a mandatory digit run; integer literals (no fraction, no
exponent) give Python ints, anything else floats.  An `e`/`E` without digits
is rejected here; the Python decoder instead ends the number before the `e`,
but no input can continue validly at an `e`, so `jsonLoads` agrees. -/
def parseNumExp (neg : Bool) (ip fracDigits : List Char) (hasFrac : Bool)
    (cs3 : List Char) : Option (Json × List Char) :=
  match cs3 with
  | c :: t =>
    if c = 'e' ∨ c = 'E' then
      match t with
      | d :: t2 =>
        if d = '+' then
          if t2.takeWhile Char.isDigit = [] then none
          else some (.float (numMant neg ip fracDigits *
            (10 : ℚ) ^ (digitsToNat (t2.takeWhile Char.isDigit) : ℤ)), t2.dropWhile Char.isDigit)
        else if d = '-' then
          if t2.takeWhile Char.isDigit = [] then none
          else some (.float (numMant neg ip fracDigits *
            (10 : ℚ) ^ (-(digitsToNat (t2.takeWhile Char.isDigit) : ℤ))), t2.dropWhile Char.isDigit)
        else
          if t.takeWhile Char.isDigit = [] then none
          else some (.float (numMant neg ip fracDigits *
            (10 : ℚ) ^ (digitsToNat (t.takeWhile Char.isDigit) : ℤ)), t.dropWhile Char.isDigit)
      | [] => none
    else if hasFrac then some (.float (numMant neg ip fracDigits), cs3)
    else some (.int ((if neg then -1 else 1) * (digitsToNat ip : Int)), cs3)
  | [] =>
    if hasFrac then some (.float (numMant neg ip fracDigits), [])
    else some (.int ((if neg then -1 else 1) * (digitsToNat ip : Int)), [])

/-- The optional fraction part of a JSON number: a `.` demands a nonempty
digit run (the Python decoder would instead end the number before the `.`; as
with the exponent, no input continues validly at a `.`). -/
def parseNumFrac (neg : Bool) (ip : List Char) (cs2 : List Char) : Option (Json × List Char) :=
  match cs2 with
  | c :: t =>
    if c = '.' then
      if t.takeWhile Char.isDigit = [] then none
      else parseNumExp neg ip (t.takeWhile Char.isDigit) true (t.dropWhile Char.isDigit)
    else parseNumExp neg ip [] false cs2
  | [] => parseNumExp neg ip [] false []

/-- The integer digits of a JSON number (`0 | [1-9][0-9]*`, so no leading
zero), after the optional sign. -/
def parseNumSigned (neg : Bool) (cs1 : List Char) : Option (Json × List Char) :=
  if cs1.takeWhile Char.isDigit = [] then none
  else if 1 < (cs1.takeWhile Char.isDigit).length ∧ (cs1.takeWhile Char.isDigit).headD ' ' = '0' then none
  else parseNumFrac neg (cs1.takeWhile Char.isDigit) (cs1.dropWhile Char.isDigit)

/-- A JSON number starting at the head of the input (grammar
`-? (0 | [1-9][0-9]*) (.[0-9]+)? ([eE][+-]?[0-9]+)?`). -/
def parseNumber (cs : List Char) : Option (Json × List Char) :=
  match cs with
  | c :: t => if c = '-' then parseNumSigned true t else parseNumSigned false (c :: t)
  | [] => parseNumSigned false []

mutual

/-- A JSON value starting at the input (after skipping whitespace); returns the
value and the rest of the input immediately after it. -/
def parseValue : Nat → List Char → Option (Json × List Char)
  | 0, _ => none
  | f + 1, cs =>
    match skipWs cs with
    | [] => none
    | c :: rest =>
      if c = lbrace then
        match skipWs rest with
        | c2 :: rest2 =>
          if c2 = rbrace then some (.obj [], rest2)
          else
            match parseMembers1 f [] rest with
            | some (fs, r) => some (.obj fs, r)
            | none => none
        | [] => none
      else if c = '[' then
        match skipWs rest with
        | c2 :: rest2 =>
          if c2 = ']' then some (.arr [], rest2)
          else
            match parseItems1 f [] rest with
            | some (l, r) => some (.arr l, r)
            | none => none
        | [] => none
      else if c = dquote then
        match parseStringBody f [] rest with
        | some (s, r) => some (.str s, r)
        | none => none
      else if c = 't' then
        if ['r', 'u', 'e'].isPrefixOf rest then some (.bool true, rest.drop 3) else none
      else if c = 'f' then
        if ['a', 'l', 's', 'e'].isPrefixOf rest then some (.bool false, rest.drop 4) else none
      else if c = 'n' then
        if ['u', 'l', 'l'].isPrefixOf rest then some (.null, rest.drop 3) else none
      else if c = '-' ∨ c.isDigit then parseNumber (c :: rest)
      else none

/-- The members of a JSON object, starting after the opening brace, at least
one member being required; returns the accumulated (last-wins, insertion
ordered, as in the Python decoder) field list and the rest of the input after
the closing brace. -/
def parseMembers1 : Nat → List (String × Json) → List Char → Option (List (String × Json) × List Char)
  | 0, _, _ => none
  | f + 1, acc, cs =>
    match skipWs cs with
    | c :: rest =>
      if c = dquote then
        match parseStringBody f [] rest with
        | some (k, cs2) =>
          match skipWs cs2 with
          | c1 :: cs3 =>
            if c1 = ':' then
              match parseValue f cs3 with
              | some (v, cs4) =>
                match skipWs cs4 with
                | c2 :: cs5 =>
                  if c2 = ',' then parseMembers1 f (dSet acc k v) cs5
                  else if c2 = rbrace then some (dSet acc k v, cs5)
                  else none
                | [] => none
              | none => none
            else none
          | [] => none
        | none => none
      else none
    | [] => none

/-- The items of a JSON array, starting after the opening bracket, at least one
item being required; returns the items and the rest of the input after the
closing bracket. -/
def parseItems1 : Nat → List Json → List Char → Option (List Json × List Char)
  | 0, _, _ => none
  | f + 1, acc, cs =>
    match parseValue f cs with
    | some (v, r) =>
      match skipWs r with
      | c :: r2 =>
        if c = ',' then parseItems1 f (acc ++ [v]) r2
        else if c = ']' then some (acc ++ [v], r2)
        else none
      | [] => none
    | none => none

end

/-- `json.loads`: one value, with nothing but whitespace after it. -/
def jsonLoads (cs : List Char) : Option Json :=
  match parseValue (2 * cs.length + 2) cs with
  | some (v, rest) => if skipWs rest = [] then some v else none
  | none => none

/-! ## `core/response_normalizer.py` — JSON extraction

`_extract_json` tries, in order: the whole stripped text; a fenced code block
(regex `(three backticks)(?:json)?\s*\n?(\x7b.*?\x7d)\s*\n?(three backticks)`
with DOTALL); the first one-level brace block (regex
`\x7b[^bracesclass]*(?:\x7b[^bracesclass]*\x7d[^bracesclass]*)*\x7d`).
Both regexes are deterministic on their inputs (each quantified class is
disjoint from what follows it), so they are modelled by direct scans; `\s*\n?`
is equivalent to `\s*` since `\n` is in `\s`. -/

/-- Not a brace (the `[^...]` class of the brace-block regex). -/
def notBrace (c : Char) : Bool := ¬ (c = lbrace ∨ c = rbrace)

/-- Attempt the brace-block pattern just after an opening brace: non-braces,
then any number of one-level `\x7b...\x7d` groups separated by non-braces,
then the closing brace.  Returns the content between the outer braces and the
rest of the input. -/
def braceMatchTail : Nat → List Char → List Char → Option (List Char × List Char)
  | 0, _, _ => none
  | f + 1, acc, cs =>
    let nb := cs.takeWhile notBrace
    match cs.dropWhile notBrace with
    | [] => none
    | c :: rest =>
      if c = rbrace then some (acc ++ nb, rest)
      else
        let nb2 := rest.takeWhile notBrace
        match rest.dropWhile notBrace with
        | c2 :: rest2 =>
          if c2 = rbrace then braceMatchTail f (acc ++ nb ++ [lbrace] ++ nb2 ++ [rbrace]) rest2
          else none
        | [] => none

/-- `re.search` for the brace-block pattern: try every position in order; the
pattern can only start at an opening brace. -/
def braceSearch : Nat → List Char → Option (List Char)
  | 0, _ => none
  | _ + 1, [] => none
  | f + 1, c :: rest =>
    if c = lbrace then
      match braceMatchTail (rest.length + 1) [] rest with
      | some (inner, _) => some (lbrace :: (inner ++ [rbrace]))
      | none => braceSearch f rest
    else braceSearch f rest

/-- Fallback 3 of `_extract_json`: `json.loads` on the first brace-block
match, if any. -/
def braceJson (text : List Char) : Option Json :=
  (braceSearch (text.length + 1) text).bind jsonLoads

/-- The three-backtick code fence. -/
def threeTicks : List Char := [btick, btick, btick]

/-- Non-greedy search for the closing brace of the fenced-block capture: the
first closing brace followed (after whitespace) by a closing fence.  Returns
the capture content before that brace. -/
def cbFindClose : Nat → List Char → List Char → Option (List Char)
  | 0, _, _ => none
  | _ + 1, _, [] => none
  | f + 1, acc, c :: rest =>
    if c = rbrace ∧ threeTicks.isPrefixOf (rest.dropWhile pyWs) then some acc
    else cbFindClose f (acc ++ [c]) rest

/-- Attempt the fenced-block pattern just after an opening fence: an optional
literal `json`, whitespace, then the non-greedy brace capture. -/
def cbAt (cs : List Char) : Option (List Char) :=
  let cs1 := if ['j', 's', 'o', 'n'].isPrefixOf cs then cs.drop 4 else cs
  match cs1.dropWhile pyWs with
  | c :: rest =>
    if c = lbrace then (cbFindClose (rest.length + 1) [] rest).map (fun inner => lbrace :: (inner ++ [rbrace]))
    else none
  | [] => none

/-- `re.search` for the fenced-block pattern: try every position in order; the
pattern can only start at a fence. -/
def cbSearch : Nat → List Char → Option (List Char)
  | 0, _ => none
  | _ + 1, [] => none
  | f + 1, c :: rest =>
    if threeTicks.isPrefixOf (c :: rest) then
      match cbAt ((c :: rest).drop 3) with
      | some cand => some cand
      | none => cbSearch f rest
    else cbSearch f rest

/-- Fallback 2 of `_extract_json`: `json.loads` on the fenced-block capture,
if any. -/
def codeBlockJson (text : List Char) : Option Json :=
  (cbSearch (text.length + 1) text).bind jsonLoads

/-- `_extract_json`: whole stripped text when it is brace-delimited, else the
fenced code block, else the first brace block.  Only `none` or an object can
come out of it (`extractJson_obj` below). -/
def extractJson (text : List Char) : Option Json :=
  let stripped := stripChars text
  match (if stripped.head? = some lbrace ∧ stripped.getLast? = some rbrace
         then jsonLoads stripped else none) with
  | some v => some v
  | none =>
    match codeBlockJson text with
    | some v => some v
    | none => braceJson text

/-! ## `core/response_normalizer.py` — coercion, validation, `normalize` -/

/-- `EMPTY_RESPONSE`. -/
def emptyResponse : List (String × Json) :=
  [("title", .str ""), ("summary", .str ""), ("steps", .arr []),
   ("artifacts", .arr []), ("risks", .arr []), ("next", .arr [])]

/-- `data.get(k, default)`. -/
def dGetD (data : List (String × Json)) (k : String) (d : Json) : Json :=
  (alookup data k).getD d

/-- The `steps` loop of `_coerce_to_schema` (`for i, s in enumerate(...)`,
with `i` starting at `i0`): dict entries keep their `step` (default index + 1)
and have `action`/`details` string-coerced, plain strings become actions,
everything else is dropped. -/
def coerceStepsFrom (i0 : Nat) : List Json → List Json
  | [] => []
  | s :: rest =>
    match s with
    | .obj fs =>
      Json.obj
        [("step", dGetD fs "step" (.int (i0 + 1))),
         ("action", .str (pyStr (dGetD fs "action" (dGetD fs "name" (.str ""))))),
         ("details", .str (pyStr (dGetD fs "details" (dGetD fs "description" (dGetD fs "detail" (.str ""))))))] ::
        coerceStepsFrom (i0 + 1) rest
    | .str s2 =>
      Json.obj [("step", .int (i0 + 1)), ("action", .str s2), ("details", .str "")] ::
        coerceStepsFrom (i0 + 1) rest
    | _ => coerceStepsFrom (i0 + 1) rest

/-- The `steps` loop of `_coerce_to_schema`. -/
def coerceSteps (l : List Json) : List Json := coerceStepsFrom 0 l

/-- The `artifacts` loop of `_coerce_to_schema`. -/
def coerceArtifacts (l : List Json) : List Json :=
  l.filterMap (fun a =>
    match a with
    | .obj fs => some (.obj
        [("type", .str (pyStr (dGetD fs "type" (dGetD fs "유형" (.str "file"))))),
         ("path", .str (pyStr (dGetD fs "path" (dGetD fs "경로" (.str "")))))])
    | .str p => some (.obj [("type", .str "file"), ("path", .str p)])
    | _ => none)

/-- The `risks` loop of `_coerce_to_schema`. -/
def coerceRisks (l : List Json) : List Json :=
  l.filterMap (fun r =>
    match r with
    | .obj fs => some (.obj
        [("risk", .str (pyStr (dGetD fs "risk" (dGetD fs "위험" (.str ""))))),
         ("mitigation", .str (pyStr (dGetD fs "mitigation" (dGetD fs "대응" (dGetD fs "완화" (.str ""))))))])
    | .str s => some (.obj [("risk", .str s), ("mitigation", .str "")])
    | _ => none)

/-- `_coerce_to_schema`: force the extracted object into the canonical shape,
filling missing fields with defaults. -/
def coerceToSchema (data : List (String × Json)) : List (String × Json) :=
  let result := emptyResponse
  let result := dSet result "title" (.str (pyStr (dGetD data "title" (dGetD data "제목" (.str "")))))
  let result := dSet result "summary" (.str (pyStr (dGetD data "summary"
      (dGetD data "요약" (dGetD data "description" (dGetD data "설명" (.str "")))))))
  let result :=
    match dGetD data "steps" (dGetD data "단계" (.arr [])) with
    | .arr l => dSet result "steps" (.arr (coerceSteps l))
    | _ => result
  let result :=
    match dGetD data "artifacts" (dGetD data "산출물" (.arr [])) with
    | .arr l => dSet result "artifacts" (.arr (coerceArtifacts l))
    | _ => result
  let result :=
    match dGetD data "risks" (dGetD data "위험" (.arr [])) with
    | .arr l => dSet result "risks" (.arr (coerceRisks l))
    | _ => result
  let result :=
    match dGetD data "next" (dGetD data "다음" (.arr [])) with
    | .arr l => dSet result "next" (.arr (l.map (fun n => .str (pyStr n))))
    | .str s => dSet result "next" (.arr [.str s])
    | _ => result
  result

/-- `RESPONSE_SCHEMA` as field/type-name pairs, in declaration order. -/
def responseSchema : List (String × String) :=
  [("title", "str"), ("summary", "str"), ("steps", "list"),
   ("artifacts", "list"), ("risks", "list"), ("next", "list")]

/-- `isinstance(v, str)` / `isinstance(v, list)` for the two schema types. -/
def typeMatches (tname : String) (v : Json) : Bool :=
  match tname, v with
  | "str", .str _ => true
  | "list", .arr _ => true
  | _, _ => false

/-- The field loop of `validate_schema`: presence and type of each schema
field, in schema order. -/
def fieldViolations (data : List (String × Json)) : List (String × String) → List String
  | [] => []
  | ft :: rest =>
    (match alookup data ft.1 with
     | none => ["필드 누락: " ++ ft.1]
     | some v =>
       if typeMatches ft.2 v then []
       else ["타입 불일치: " ++ ft.1 ++ " (기대: " ++ ft.2 ++ ", 실제: " ++ pyTypeName v ++ ")"]) ++
    fieldViolations data rest

/-- The `steps` loop of `validate_schema` (`for i, s in enumerate(...)`, with
`i` starting at `i0`): every item must be a dict with an `action` key. -/
def stepViolations (i0 : Nat) : List Json → List String
  | [] => []
  | s :: rest =>
    (match s with
     | .obj fs =>
       if (alookup fs "action").isSome then []
       else ["steps[" ++ toString i0 ++ "]: action 필드 누락"]
     | _ => ["steps[" ++ toString i0 ++ "]: dict가 아님"]) ++
    stepViolations (i0 + 1) rest

/-- `validate_schema`: field presence and types, then the inner structure of
`steps`. -/
def validateSchema (data : List (String × Json)) : List String :=
  let violations := fieldViolations data responseSchema
  match alookup data "steps" with
  | some (.arr l) => violations ++ stepViolations 0 l
  | _ => violations

/-- The structured branch of `normalize`: coerce, validate, attach the
bookkeeping fields. -/
def normalizeWithObj (rawText : List Char) (data : List (String × Json)) : List (String × Json) :=
  let normalized := coerceToSchema data
  let violations := validateSchema normalized
  let n1 := dSet normalized "_raw" (.str (String.mk rawText))
  let n2 := dSet n1 "_valid" (.bool (violations.length = 0))
  dSet n2 "_violations" (.arr (violations.map .str))

/-- The fallback branch of `normalize`: wrap the raw text. -/
def normalizeFallback (rawText : List Char) : List (String × Json) :=
  let result := emptyResponse
  let result := dSet result "summary" (.str (String.mk (stripChars rawText)))
  let result := dSet result "title" (.str (String.mk ((stripChars rawText).take 80)))
  let n1 := dSet result "_raw" (.str (String.mk rawText))
  let n2 := dSet n1 "_valid" (.bool false)
  dSet n2 "_violations" (.arr [.str "JSON 추출 실패: 원문이 JSON 형식이 아님"])

/-- `normalize`: the structured branch runs only when the extracted value is
truthy, i.e. a non-empty dict (`if extracted:`); `_extract_json` never returns
a non-dict value (`extractJson_obj` below), so the remaining arm is
unreachable. -/
def normalize (rawText : List Char) : List (String × Json) :=
  match extractJson rawText with
  | some (.obj data) =>
      if data.isEmpty then normalizeFallback rawText else normalizeWithObj rawText data
  | some _ => normalizeFallback rawText
  | none => normalizeFallback rawText

/-! ## The canonical schema predicate (for the round-trip claim)

`matchesCanonicalSchema` renders, as a decidable predicate on parsed objects,
the canonical response schema stated in `response_normalizer`'s module
docstring: `title`/`summary` strings, `steps` a list of
`step`(int)/`action`(str)/`details`(str) dicts, `artifacts` a list of
`type`/`path` string dicts, `risks` a list of `risk`/`mitigation` string
dicts, `next` a list of strings; the item dicts carry exactly those keys (in
any order). -/

/-- The value under `k` exists and satisfies `p`. -/
def lookupIs (fs : List (String × Json)) (k : String) (p : Json → Bool) : Bool :=
  match alookup fs k with
  | some v => p v
  | none => false

/-- `isinstance(v, str)`. -/
def isStrJ : Json → Bool
  | .str _ => true
  | _ => false

/-- `isinstance(v, int)` (Python ints; bools excluded, as the schema means
actual step numbers). -/
def isIntJ : Json → Bool
  | .int _ => true
  | _ => false

/-- A canonical `steps` item: exactly `step`(int), `action`(str),
`details`(str). -/
def isCanonicalStep : Json → Bool
  | .obj fs =>
    fs.length == 3 && lookupIs fs "step" isIntJ && lookupIs fs "action" isStrJ &&
      lookupIs fs "details" isStrJ
  | _ => false

/-- A canonical `artifacts` item: exactly `type`(str), `path`(str). -/
def isCanonicalArtifact : Json → Bool
  | .obj fs => fs.length == 2 && lookupIs fs "type" isStrJ && lookupIs fs "path" isStrJ
  | _ => false

/-- A canonical `risks` item: exactly `risk`(str), `mitigation`(str). -/
def isCanonicalRisk : Json → Bool
  | .obj fs => fs.length == 2 && lookupIs fs "risk" isStrJ && lookupIs fs "mitigation" isStrJ
  | _ => false

/-- The value under `k` is a list all of whose items satisfy `p`. -/
def lookupArrAll (o : List (String × Json)) (k : String) (p : Json → Bool) : Bool :=
  match alookup o k with
  | some (.arr l) => l.all p
  | _ => false

/-- A parsed object matching the canonical schema. -/
def matchesCanonicalSchema (o : List (String × Json)) : Bool :=
  lookupIs o "title" isStrJ && lookupIs o "summary" isStrJ &&
  lookupArrAll o "steps" isCanonicalStep &&
  lookupArrAll o "artifacts" isCanonicalArtifact &&
  lookupArrAll o "risks" isCanonicalRisk &&
  lookupArrAll o "next" isStrJ

/-- The two-character text of an empty JSON object (the C6 counterexample
input). -/
def emptyObjText : List Char := [lbrace, rbrace]

/-- A one-field JSON object text, used by witnesses. -/
def objTextA : List Char := "\x7b\x22a\x22: 1\x7d".toList

/-- A minimal canonical-schema JSON text, used by the round-trip witness. -/
def canonicalText : List Char :=
  ("\x7b\x22title\x22:\x22t\x22,\x22summary\x22:\x22s\x22," ++
   "\x22steps\x22:[\x7b\x22action\x22:\x22a\x22,\x22step\x22:1,\x22details\x22:\x22d\x22\x7d]," ++
   "\x22artifacts\x22:[],\x22risks\x22:[],\x22next\x22:[\x22n\x22]\x7d").toList

/-! ## `core/ai_router.py` — session history

A session's stored message list; the per-id session dictionary is elided
since every list evolves independently (`add_message` touches only the list of
the given `session_id`). -/

/-- A role-tagged chat message. -/
structure ChatMessage where
  role : String
  content : String
deriving DecidableEq, Repr

/-- `MAX_HISTORY`. -/
def MAX_HISTORY : Nat := 20

/-- One line of the compaction summary: role tag plus the first 80 characters
of the content. -/
def summarizeLine (m : ChatMessage) : String :=
  "[" ++ (if m.role = "user" then "사용자" else "AI") ++ "] " ++
    String.mk (m.content.toList.take 80)

/-- `_compress_history`: replace the oldest half by one synthetic summary
message. -/
def compressHistory (msgs : List ChatMessage) : List ChatMessage :=
  let half := msgs.length / 2
  let oldMsgs := msgs.take half
  let summary := "[이전 대화 요약]" ++ String.mk [Char.ofNat 10] ++
    String.intercalate (String.mk [Char.ofNat 10]) (oldMsgs.map summarizeLine)
  ⟨"system", summary⟩ :: msgs.drop half

/-- `add_message`: append, then compact when the window is exceeded. -/
def addMessage (msgs : List ChatMessage) (role content : String) : List ChatMessage :=
  let l := msgs ++ [(⟨role, content⟩ : ChatMessage)]
  if MAX_HISTORY < l.length then compressHistory l else l

/-! ## `core/llm_router.py` — providers, availability, budget, routing

Providers and configuration are modelled as records whose fields carry the
values the Python code reads out of the registry/config dicts with `.get`
defaults; the record defaults below are exactly those `.get` defaults. -/

/-- A provider registry entry. -/
structure Provider where
  name : String
  keyEnv : String
  model : String := ""
  tier : String := "free"
  costPer1kTokens : ℚ := 0
  mappedLegacy : Option String := none
deriving DecidableEq, Repr

/-- The router configuration (`config/llm_routing.yaml`, or the in-code
defaults when the file or PyYAML is absent — the field defaults are those of
`_load_config` and of the `.get` calls that read the config). -/
structure RouterConfig where
  routingChain : List (String × List String) :=
    [("light", ["groq", "gemini_flash", "openrouter_free"]),
     ("general", ["groq", "gemini_flash", "together_free", "openrouter_free"]),
     ("coding", ["together_free", "gemini_flash", "groq"]),
     ("high_precision", ["groq", "gemini_flash", "together_free"])]
  cooldownSec : Int := 60
  schemaMismatchThreshold : Nat := 2
  consecutiveFailThreshold : Nat := 3
  autoEscalateToTier : String := "low_cost"
  premiumEscalateAfter : Nat := 2
  dailyLimitUsd : ℚ := 1
  monthlyLimitUsd : ℚ := 20
  blockOnExceed : Bool := true
deriving Repr

/-- One record of `logs/llm_usage.jsonl` (`_log_usage`; the wall-clock
timestamp it stamps on the record is not modelled). -/
structure UsageEntry where
  agentId : String
  provider : String
  model : String
  tier : String
  taskClass : String
  success : Bool
  latencyMs : Int
  retries : Nat
  failoverCount : Nat
  escalated : Bool
  error : Option String := none
deriving DecidableEq, Repr

/-- The mutable module state read and written by the router: `os.environ`,
`_provider_failures`, `_daily_spend`, `_monthly_spend` and the usage log
file. -/
structure RouterState where
  env : List (String × String)
  failures : List (String × Int)
  dailySpend : List (String × ℚ)
  monthlySpend : List (String × ℚ)
  usageLog : List UsageEntry
deriving Repr

/-- `os.environ.get(k, "")`. -/
def envGet (st : RouterState) (k : String) : String := (alookup st.env k).getD ""

/-- The key under which a provider's failures are recorded:
`prov.get("mapped_legacy", prov.get("name", ""))`. -/
def provFailKey (p : Provider) : String := p.mappedLegacy.getD p.name

/-- `_is_provider_available`: credential present and no live cooldown.  The
`t = 0` disjunct mirrors Python's truthiness test `if fail_time and ...` on
the stored timestamp (a recorded `0.0` is falsy). -/
def isProviderAvailable (cfg : RouterConfig) (p : Provider) (st : RouterState) (now : Int) : Bool :=
  if envGet st p.keyEnv = "" then false
  else
    match alookup st.failures (provFailKey p) with
    | some t => if t ≠ 0 ∧ now - t < cfg.cooldownSec then false else true
    | none => true

/-- `_is_available` of `core/ai_router.py` (same shape, fixed 60-second
cooldown, failures keyed by the provider's own name). -/
def legacyIsAvailable (p : Provider) (st : RouterState) (now : Int) : Bool :=
  if envGet st p.keyEnv = "" then false
  else
    match alookup st.failures p.name with
    | some t => if t ≠ 0 ∧ now - t < 60 then false else true
    | none => true

/-- `_mark_failed`. -/
def markFailed (st : RouterState) (name : String) (now : Int) : RouterState :=
  { st with failures := dSet st.failures name now }

/-- `_provider_failures.pop(name, None)`. -/
def clearFailure (st : RouterState) (name : String) : RouterState :=
  { st with failures := dErase st.failures name }

/-- Why the budget guard denied a paid call.  The source renders this as a
Korean message carrying exactly the exceeded ceiling's name and its
current/limit dollar figures; the constructor holds those figures. -/
inductive BudgetReason : Type where
  | daily (current limit : ℚ)
  | monthly (current limit : ℚ)
deriving DecidableEq, Repr

/-- `today[:7]`. -/
def monthOf (today : String) : String := String.mk (today.toList.take 7)

/-- `_check_budget`: free tier always passes; otherwise compare the current
day's and month's accumulated spend with the ceilings.  The function only
reads the ledgers, so it returns the state unchanged. -/
def checkBudget (cfg : RouterConfig) (st : RouterState) (today : String) (tier : String) :
    RouterState × Bool × Option BudgetReason :=
  if tier = "free" then (st, true, none)
  else if cfg.blockOnExceed = false then (st, true, none)
  else
    let daily := (alookup st.dailySpend today).getD 0
    let monthly := (alookup st.monthlySpend (monthOf today)).getD 0
    if cfg.dailyLimitUsd ≤ daily then (st, false, some (.daily daily cfg.dailyLimitUsd))
    else if cfg.monthlyLimitUsd ≤ monthly then (st, false, some (.monthly monthly cfg.monthlyLimitUsd))
    else (st, true, none)

/-- `_record_cost`: add the amount to the day's and the month's ledger entry,
creating either on first write. -/
def recordCost (st : RouterState) (today : String) (c : ℚ) : RouterState :=
  { st with
    dailySpend := dSet st.dailySpend today ((alookup st.dailySpend today).getD 0 + c),
    monthlySpend := dSet st.monthlySpend (monthOf today)
      ((alookup st.monthlySpend (monthOf today)).getD 0 + c) }

/-- The cost-recording step of `route`'s success path: paid providers record
`cost * (len(reply)/4 + len(prompt)/4) / 1000`, others record nothing. -/
def routeRecordCost (p : Provider) (prompt reply : String) (st : RouterState) (today : String) :
    RouterState :=
  if 0 < p.costPer1kTokens then
    recordCost st today
      (p.costPer1kTokens * ((reply.length : ℚ) / 4 + (prompt.length : ℚ) / 4) / 1000)
  else st

/-- `_log_usage`: append one record to the usage log. -/
def logUsage (st : RouterState) (e : UsageEntry) : RouterState :=
  { st with usageLog := st.usageLog ++ [e] }

/-- `tiers_order`. -/
def tiersOrder : List String := ["free", "low_cost", "premium"]

/-- `tiers_order.index(t)` with the `ValueError` handler mapping unknown tiers
to 0. -/
def tierIdx (t : String) : Nat :=
  if t ∈ tiersOrder then tiersOrder.indexOf t else 0

/-- `_append_escalation_chain`: the tier loop adds providers whose tier lies
in `tiers_order[target:]` but not in `tiers_order[max(target, current+1):]`
and whose name is in neither the list so far nor the tried chain; then, when
the list is still short, every premium provider not already listed is added
(tried or not). -/
def appendEscalationChain (cfg : RouterConfig) (providers : List (String × Provider))
    (escChain : List String) (currentTier : String) (tried : List String) : List String :=
  let currentIdx := tierIdx currentTier
  let targetIdx := if cfg.autoEscalateToTier ∈ tiersOrder then tiersOrder.indexOf cfg.autoEscalateToTier else 1
  let esc1 := providers.foldl (fun esc np =>
    if np.2.tier ∈ tiersOrder.drop (max targetIdx (currentIdx + 1)) then esc
    else if np.2.tier ∈ tiersOrder.drop targetIdx ∧ np.1 ∉ esc ∧ np.1 ∉ tried then esc ++ [np.1]
    else esc) escChain
  if esc1.length ≤ cfg.premiumEscalateAfter then
    providers.foldl (fun esc np =>
      if np.2.tier = "premium" ∧ np.1 ∉ esc then esc ++ [np.1] else esc) esc1
  else esc1

/-- The outcome of one provider call for the request being routed (the network
oracle: transport success with a reply, or a raised error message). -/
inductive CallResult : Type where
  | ok (reply : String)
  | err (msg : String)
deriving DecidableEq, Repr

/-- The loop variables of `route`, together with the module state. -/
structure RouteAcc where
  retries : Nat := 0
  failoverCount : Nat := 0
  escalated : Bool := false
  consecutiveSchemaFails : Nat := 0
  lastError : Option String := none
  escalationChain : List String := []
  st : RouterState
deriving Repr

/-- The dict `route` returns.  Latencies are wall-clock artifacts and are
modelled as 0 (the clock is frozen during the request). -/
structure RouteResult where
  reply : String
  provider : String
  model : String
  tier : String
  taskClass : String
  latencyMs : Int
  retries : Nat
  failoverCount : Nat
  escalated : Bool
  error : Option String
  normalized : Option (List (String × Json))
deriving Repr

/-- The main candidate loop of `route` over the routing chain.  `chainFull` is
the complete base chain (passed to `_append_escalation_chain` as the tried
list); the sum is `inl` when the loop exhausts the chain and `inr` on an early
success return. -/
def routeMainLoop (cfg : RouterConfig) (providers : List (String × Provider))
    (callFn : String → CallResult) (requireStructured : Bool)
    (taskClass agentId prompt : String) (now : Int) (today : String)
    (chainFull : List String) : List String → RouteAcc → RouteAcc ⊕ (RouteResult × RouterState)
  | [], acc => .inl acc
  | provName :: rest, acc =>
    match alookup providers provName with
    | none => routeMainLoop cfg providers callFn requireStructured taskClass agentId prompt now today chainFull rest acc
    | some prov =>
      if isProviderAvailable cfg prov acc.st now = false then
        routeMainLoop cfg providers callFn requireStructured taskClass agentId prompt now today chainFull rest acc
      else
        let tier := prov.tier
        let budget := checkBudget cfg acc.st today tier
        if budget.2.1 = false then
          routeMainLoop cfg providers callFn requireStructured taskClass agentId prompt now today chainFull rest
            { acc with st := budget.1 }
        else
          match callFn provName with
          | .err e =>
            let acc1 := { acc with
              retries := acc.retries + 1,
              failoverCount := acc.failoverCount + 1,
              lastError := some ("[" ++ provName ++ "] " ++ e),
              st := markFailed budget.1 (provFailKey prov) now }
            let acc2 :=
              if cfg.consecutiveFailThreshold ≤ acc1.failoverCount ∧ acc1.escalated = false then
                { acc1 with
                  escalated := true,
                  escalationChain := appendEscalationChain cfg providers acc1.escalationChain "free" chainFull }
              else acc1
            routeMainLoop cfg providers callFn requireStructured taskClass agentId prompt now today chainFull rest acc2
          | .ok reply =>
            let st2 := clearFailure budget.1 (provFailKey prov)
            let st3 := routeRecordCost prov prompt reply st2 today
            let normalized : Option (List (String × Json)) :=
              if requireStructured then some (normalize reply.toList) else none
            let invalid : Bool :=
              match normalized with
              | some n =>
                match alookup n "_valid" with
                | some (.bool false) => true
                | _ => false
              | none => false
            if invalid ∧ cfg.schemaMismatchThreshold ≤ acc.consecutiveSchemaFails + 1 then
              let acc1 := { acc with
                escalated := true,
                escalationChain := appendEscalationChain cfg providers acc.escalationChain tier chainFull,
                failoverCount := acc.failoverCount + 1,
                consecutiveSchemaFails := acc.consecutiveSchemaFails + 1,
                lastError := some ("스키마 불일치 " ++ toString (acc.consecutiveSchemaFails + 1) ++ "회 (승격 발동)"),
                st := st3 }
              routeMainLoop cfg providers callFn requireStructured taskClass agentId prompt now today chainFull rest acc1
            else
              let entry : UsageEntry :=
                { agentId := agentId, provider := provName, model := prov.model, tier := tier,
                  taskClass := taskClass, success := true, latencyMs := 0,
                  retries := acc.retries, failoverCount := acc.failoverCount,
                  escalated := acc.escalated, error := none }
              .inr
                ({ reply := reply, provider := provName, model := prov.model, tier := tier,
                   taskClass := taskClass, latencyMs := 0, retries := acc.retries,
                   failoverCount := acc.failoverCount, escalated := acc.escalated,
                   error := none, normalized := normalized },
                 logUsage st3 entry)

/-- The escalation loop of `route`: same per-candidate rules, but names
already in the base chain are skipped, schema validity is not re-checked, and
errors do not bump the retry/failover counters. -/
def routeEscLoop (cfg : RouterConfig) (providers : List (String × Provider))
    (callFn : String → CallResult) (requireStructured : Bool)
    (taskClass agentId prompt : String) (now : Int) (today : String)
    (chain : List String) : List String → RouteAcc → RouteAcc ⊕ (RouteResult × RouterState)
  | [], acc => .inl acc
  | provName :: rest, acc =>
    if provName ∈ chain then
      routeEscLoop cfg providers callFn requireStructured taskClass agentId prompt now today chain rest acc
    else
      match alookup providers provName with
      | none => routeEscLoop cfg providers callFn requireStructured taskClass agentId prompt now today chain rest acc
      | some prov =>
        if isProviderAvailable cfg prov acc.st now = false then
          routeEscLoop cfg providers callFn requireStructured taskClass agentId prompt now today chain rest acc
        else
          let tier := prov.tier
          let budget := checkBudget cfg acc.st today tier
          if budget.2.1 = false then
            routeEscLoop cfg providers callFn requireStructured taskClass agentId prompt now today chain rest
              { acc with st := budget.1 }
          else
            match callFn provName with
            | .err e =>
              routeEscLoop cfg providers callFn requireStructured taskClass agentId prompt now today chain rest
                { acc with
                  lastError := some ("[escalation:" ++ provName ++ "] " ++ e),
                  st := markFailed budget.1 (provFailKey prov) now }
            | .ok reply =>
              let st2 := clearFailure budget.1 (provFailKey prov)
              let st3 := routeRecordCost prov prompt reply st2 today
              let normalized : Option (List (String × Json)) :=
                if requireStructured then some (normalize reply.toList) else none
              let entry : UsageEntry :=
                { agentId := agentId, provider := provName, model := prov.model, tier := tier,
                  taskClass := taskClass, success := true, latencyMs := 0,
                  retries := acc.retries, failoverCount := acc.failoverCount,
                  escalated := true, error := none }
              .inr
                ({ reply := reply, provider := provName, model := prov.model, tier := tier,
                   taskClass := taskClass, latencyMs := 0, retries := acc.retries,
                   failoverCount := acc.failoverCount, escalated := true,
                   error := none, normalized := normalized },
                 logUsage st3 entry)

/-- `route`: build the chain for the task class (premium first on `critical`
priority), walk it, then walk whatever escalation chain accumulated, then
return the aggregated failure (message construction from `prompt` and
`system_prompt` is elided — provider behaviour for this request's messages is
the `callFn` oracle; the clock is frozen at `now`, `date.today()` is
`today`). -/
def route (cfg : RouterConfig) (providers : List (String × Provider))
    (callFn : String → CallResult) (taskClass prompt agentId priority : String)
    (requireStructured : Bool) (st0 : RouterState) (now : Int) (today : String) :
    RouteResult × RouterState :=
  let chain0 := (alookup cfg.routingChain taskClass).getD ["groq", "gemini_flash"]
  let chain :=
    if priority = "critical" then
      let premiumProvs := (providers.filter (fun np => np.2.tier = "premium")).map (·.1)
      premiumProvs ++ chain0.filter (fun c => c ∉ premiumProvs)
    else chain0
  match routeMainLoop cfg providers callFn requireStructured taskClass agentId prompt now today chain chain { st := st0 } with
  | .inr res => res
  | .inl acc =>
    match (if acc.escalationChain.isEmpty then .inl acc
           else routeEscLoop cfg providers callFn requireStructured taskClass agentId prompt now today chain acc.escalationChain acc) with
    | .inr res => res
    | .inl acc2 =>
      let errorMsg := acc2.lastError.getD "사용 가능한 AI 프로바이더가 없습니다."
      let entry : UsageEntry :=
        { agentId := agentId, provider := "", model := "", tier := "",
          taskClass := taskClass, success := false, latencyMs := 0,
          retries := acc2.retries, failoverCount := acc2.failoverCount,
          escalated := acc2.escalated, error := some (String.mk (errorMsg.toList.take 200)) }
      ({ reply := "", provider := "", model := "", tier := "",
         taskClass := taskClass, latencyMs := 0, retries := acc2.retries,
         failoverCount := acc2.failoverCount, escalated := acc2.escalated,
         error := some errorMsg, normalized := none },
       logUsage acc2.st entry)

/-! ## Concrete data for the witness theorems -/

/-- An empty router state. -/
def emptyState : RouterState :=
  { env := [], failures := [], dailySpend := [], monthlySpend := [], usageLog := [] }

/-- A state whose daily ledger for 2026-10-12 is already over the default
daily limit. -/
def overBudgetState : RouterState :=
  { env := [], failures := [], dailySpend := [("2026-10-12", 2)],
    monthlySpend := [], usageLog := [] }

/-- The default configuration (no YAML overrides). -/
def defaultConfig : RouterConfig := {}

/-- A user message used by the session witnesses. -/
def wUserMsg : ChatMessage := { role := "user", content := "x" }

/-- Witness providers A, B, C for the routing-chain claim. -/
def wProvA : Provider := { name := "A", keyEnv := "A_KEY" }

/-- See `wProvA`. -/
def wProvB : Provider := { name := "B", keyEnv := "B_KEY" }

/-- See `wProvA`. -/
def wProvC : Provider := { name := "C", keyEnv := "C_KEY" }

/-- A three-provider registry for the routing-chain witness. -/
def wRegistry : List (String × Provider) := [("A", wProvA), ("B", wProvB), ("C", wProvC)]

/-- A configuration whose `general` chain is `[A, B, C]`. -/
def wChainConfig : RouterConfig := { routingChain := [("general", ["A", "B", "C"])] }

/-- An environment in which only B and C hold credentials. -/
def wEnvState : RouterState :=
  { env := [("B_KEY", "k"), ("C_KEY", "k")], failures := [], dailySpend := [],
    monthlySpend := [], usageLog := [] }

/-- A call oracle under which B raises and every other provider succeeds. -/
def wCallFn : String → CallResult := fun n => if n = "B" then .err "boom" else .ok "hi"

/-- A registered, credentialed low-cost provider that the escalation-chain
claim says must be appended. -/
def cheapProv : Provider := { name := "cheap", keyEnv := "CHEAP_KEY", tier := "low_cost" }

/-- A registry holding a free provider and the low-cost provider. -/
def escProviders : List (String × Provider) :=
  [("x", { name := "x", keyEnv := "X_KEY" }), ("cheap", cheapProv)]

/-- A premium provider. -/
def premProv : Provider := { name := "prem", keyEnv := "P_KEY", tier := "premium" }

/-- The registry above plus a premium provider. -/
def wEscRegistry : List (String × Provider) := escProviders ++ [("prem", premProv)]

/-! ## Dictionary lemmas -/

theorem alookup_dSet_self {α : Type} (l : List (String × α)) (k : String) (v : α) :
    alookup (dSet l k v) k = some v := by
  induction l with
  | nil => simp [dSet, alookup]
  | cons hd tl ih =>
    obtain ⟨k0, v0⟩ := hd
    by_cases h : k0 = k
    · simp [dSet, alookup, h]
    · simp [dSet, alookup, h, ih]

theorem alookup_dSet_ne {α : Type} (l : List (String × α)) (k k' : String) (v : α)
    (h : k ≠ k') : alookup (dSet l k v) k' = alookup l k' := by
  induction l with
  | nil => simp [dSet, alookup, h]
  | cons hd tl ih =>
    obtain ⟨k0, v0⟩ := hd
    by_cases h0 : k0 = k
    · subst h0
      simp [dSet, alookup, h]
    · simp [dSet, alookup, h0, ih]

theorem alookup_dErase_ne {α : Type} (l : List (String × α)) (k k' : String)
    (h : k ≠ k') : alookup (dErase l k) k' = alookup l k' := by
  induction l with
  | nil => simp [dErase]
  | cons hd tl ih =>
    obtain ⟨k0, v0⟩ := hd
    by_cases h0 : k0 = k
    · subst h0
      simp [dErase, alookup, h, ih]
    · simp [dErase, alookup, h0, ih]

/-! ## Claim C2 — availability is credential presence plus an expired (or
absent) cooldown -/

/-- C2: for every provider and time, `_is_provider_available` is true iff the
credential environment variable is set non-empty and either no failure is
recorded or the cooldown has elapsed; in particular it is false whenever the
credential is unset.  The hypothesis `hpos` states that recorded failure
timestamps are positive, which holds of every state the program builds
(`_mark_failed` stores a positive wall-clock value); it discharges Python's
truthiness test on the stored timestamp. -/
theorem isProviderAvailable_iff (cfg : RouterConfig) (p : Provider) (st : RouterState) (now : Int)
    (hpos : ∀ t, alookup st.failures (provFailKey p) = some t → 0 < t) :
    isProviderAvailable cfg p st now = true ↔
      (envGet st p.keyEnv ≠ "" ∧
        (alookup st.failures (provFailKey p) = none ∨
          ∃ t, alookup st.failures (provFailKey p) = some t ∧ cfg.cooldownSec ≤ now - t)) := by
  unfold isProviderAvailable
  by_cases henv : envGet st p.keyEnv = ""
  · simp [henv]
  · rw [if_neg henv]
    cases hf : alookup st.failures (provFailKey p) with
    | none => simp [henv]
    | some t =>
      have ht : 0 < t := hpos t hf
      dsimp only
      by_cases hcd : now - t < cfg.cooldownSec
      · rw [if_pos ⟨by omega, hcd⟩]
        constructor
        · intro h
          exact absurd h (by simp)
        · rintro ⟨-, h | ⟨t', ht', hle⟩⟩
          · cases h
          · injection ht' with ht''
            subst ht''
            exact absurd hle (by omega)
      · rw [if_neg (fun hc => hcd hc.2)]
        constructor
        · intro _
          exact ⟨henv, Or.inr ⟨t, rfl, by omega⟩⟩
        · intro _
          rfl

/-- Witness for C2: a concrete provider whose credential is set and whose
recorded failure is older than the cooldown is available. -/
theorem isProviderAvailable_iff_witness :
    isProviderAvailable {} { name := "groq", keyEnv := "GROQ_API_KEY" }
      { env := [("GROQ_API_KEY", "k")], failures := [("groq", 100)],
        dailySpend := [], monthlySpend := [], usageLog := [] } 400 = true := by
  apply (isProviderAvailable_iff {} { name := "groq", keyEnv := "GROQ_API_KEY" }
    { env := [("GROQ_API_KEY", "k")], failures := [("groq", 100)],
      dailySpend := [], monthlySpend := [], usageLog := [] } 400
    (by
      intro t ht
      simp [alookup, provFailKey] at ht
      omega)).mpr
  refine ⟨by decide, Or.inr ⟨100, by decide, by decide⟩⟩

/-! ## Claim C4 — budget denial blocks paid tiers, spares the free tier and
mutates nothing -/

/-- C4: with blocking enabled and the day's accumulated spend at or over the
daily limit, `_check_budget` denies a premium call with a daily-ceiling reason
carrying the current and limit values, still allows a free call, and returns
the ledgers unchanged in both cases. -/
theorem checkBudget_daily_exceeded (cfg : RouterConfig) (st : RouterState) (today : String)
    (hblock : cfg.blockOnExceed = true)
    (hexceed : cfg.dailyLimitUsd ≤ (alookup st.dailySpend today).getD 0) :
    checkBudget cfg st today "premium" =
      (st, false, some (.daily ((alookup st.dailySpend today).getD 0) cfg.dailyLimitUsd)) ∧
    checkBudget cfg st today "free" = (st, true, none) := by
  constructor
  · unfold checkBudget
    simp [hblock, hexceed]
  · rfl

/-- Witness for C4 at a concrete exhausted ledger. -/
theorem checkBudget_daily_exceeded_witness :
    checkBudget defaultConfig overBudgetState "2026-10-12" "premium" =
      (overBudgetState, false, some (.daily 2 1)) ∧
    checkBudget defaultConfig overBudgetState "2026-10-12" "free" =
      (overBudgetState, true, none) := by
  have h := checkBudget_daily_exceeded defaultConfig overBudgetState "2026-10-12" rfl
    (by norm_num [alookup, overBudgetState, defaultConfig])
  simpa [alookup, overBudgetState, defaultConfig] using h

/-! ## Claim C5 — cost recording on the success path -/

/-- C5: a successful paid call records
`cost_per_1k_tokens * ((len prompt + len reply) / 4) / 1000` into both the
day's and the month's ledger entry, each created at 0 on first write; a call
with cost 0 records nothing. -/
theorem routeRecordCost_spec (p : Provider) (prompt reply : String) (st : RouterState)
    (today : String) :
    (0 < p.costPer1kTokens →
      alookup (routeRecordCost p prompt reply st today).dailySpend today =
        some ((alookup st.dailySpend today).getD 0 +
          p.costPer1kTokens * (((prompt.length : ℚ) + (reply.length : ℚ)) / 4) / 1000) ∧
      alookup (routeRecordCost p prompt reply st today).monthlySpend (monthOf today) =
        some ((alookup st.monthlySpend (monthOf today)).getD 0 +
          p.costPer1kTokens * (((prompt.length : ℚ) + (reply.length : ℚ)) / 4) / 1000)) ∧
    (p.costPer1kTokens = 0 → routeRecordCost p prompt reply st today = st) := by
  constructor
  · intro hpos
    unfold routeRecordCost recordCost
    simp only [hpos, if_true, if_pos hpos]
    constructor
    · rw [alookup_dSet_self]
      congr 1
      ring
    · rw [alookup_dSet_self]
      congr 1
      ring
  · intro hzero
    unfold routeRecordCost
    simp [hzero]

/-- Witness for C5: a paid call at cost 0.002 per 1k tokens with a 6-character
prompt and a 2-character reply records 0.002 * 2 / 1000 dollars to both
ledgers; a zero-cost call records nothing. -/
theorem routeRecordCost_spec_witness :
    alookup (routeRecordCost { name := "x", keyEnv := "K", costPer1kTokens := 1/500 }
        "prompt" "hi" emptyState "2026-10-12").dailySpend "2026-10-12" = some (1/250000) ∧
    routeRecordCost { name := "x", keyEnv := "K" } "prompt" "hi" emptyState "2026-10-12" =
      emptyState := by
  constructor
  · have h := (routeRecordCost_spec { name := "x", keyEnv := "K", costPer1kTokens := 1/500 }
      "prompt" "hi" emptyState "2026-10-12").1 (by norm_num)
    rw [h.1]
    have hp : "prompt".length = 6 := rfl
    have hh : "hi".length = 2 := rfl
    rw [hp, hh]
    norm_num [alookup, emptyState]
  · exact (routeRecordCost_spec { name := "x", keyEnv := "K" } "prompt" "hi"
      emptyState "2026-10-12").2 rfl

/-! ## Parser lemmas

The facts about the `json.loads` model needed by the normalizer claims: a
successful parse consumes a suffix, an object parse starts at an opening brace
and stops right after a closing brace, and nothing but objects can come out of
a brace-headed input. -/

theorem skipWs_suffix (cs : List Char) : skipWs cs <:+ cs :=
  List.dropWhile_suffix jsonWs

theorem tail_suffix_of_eq {cs t : List Char} {c : Char} (h : skipWs cs = c :: t) :
    t <:+ cs :=
  List.IsSuffix.trans (List.suffix_cons c t) (h ▸ skipWs_suffix cs)

theorem skipWs_suffix_of_eq {cs t : List Char} {c : Char} (h : skipWs cs = c :: t) :
    c :: t <:+ cs :=
  h ▸ skipWs_suffix cs

theorem parseStringBody_suffix :
    ∀ (f : Nat) (acc cs : List Char) (s : String) (r : List Char),
      parseStringBody f acc cs = some (s, r) → r <:+ cs := by
  intro f
  induction f with
  | zero =>
    intro acc cs s r h
    simp [parseStringBody] at h
  | succ f ih =>
    intro acc cs s r h
    match cs with
    | [] => simp [parseStringBody] at h
    | c :: rest =>
      simp only [parseStringBody] at h
      by_cases hq : c = dquote
      · rw [if_pos hq] at h
        injection h with h'
        injection h' with _ hr
        subst hr
        exact List.suffix_cons c rest
      · rw [if_neg hq] at h
        by_cases hb : c = bslash
        · rw [if_pos hb] at h
          match rest with
          | [] => simp at h
          | e :: rest2 =>
            dsimp only at h
            by_cases hu : e = 'u'
            · rw [if_pos hu] at h
              match rest2 with
              | [] => simp at h
              | [_] => simp at h
              | [_, _] => simp at h
              | [_, _, _] => simp at h
              | a :: b :: c2 :: d :: rest3 =>
                dsimp only at h
                cases hA : hexVal a <;> rw [hA] at h <;> try simp at h
                cases hB : hexVal b <;> rw [hB] at h <;> try simp at h
                cases hC : hexVal c2 <;> rw [hC] at h <;> try simp at h
                cases hD : hexVal d <;> rw [hD] at h <;> try simp at h
                have := ih _ _ _ _ h
                calc r <:+ rest3 := this
                  _ <:+ c2 :: d :: rest3 := (List.suffix_cons d rest3).trans (List.suffix_cons c2 _)
                  _ <:+ e :: a :: b :: c2 :: d :: rest3 := by
                      refine ((List.suffix_cons b _).trans ((List.suffix_cons a _).trans (List.suffix_cons e _)))
                  _ <:+ c :: e :: a :: b :: c2 :: d :: rest3 := List.suffix_cons c _
            · rw [if_neg hu] at h
              cases hU : unescape e <;> rw [hU] at h
              · simp at h
              · have := ih _ _ _ _ h
                calc r <:+ rest2 := this
                  _ <:+ e :: rest2 := List.suffix_cons e rest2
                  _ <:+ c :: e :: rest2 := List.suffix_cons c _
        · rw [if_neg hb] at h
          by_cases hctl : c.toNat < 32
          · rw [if_pos hctl] at h
            simp at h
          · rw [if_neg hctl] at h
            exact (ih _ _ _ _ h).trans (List.suffix_cons c rest)

theorem parseNumExp_props (neg : Bool) (ip fracDigits : List Char) (hasFrac : Bool)
    (cs3 : List Char) (v : Json) (r : List Char)
    (h : parseNumExp neg ip fracDigits hasFrac cs3 = some (v, r)) :
    r <:+ cs3 ∧ ∀ o, v ≠ Json.obj o := by
  match cs3 with
  | [] =>
    simp only [parseNumExp] at h
    split at h <;> {
      injection h with h'
      injection h' with hv hr
      subst hr
      subst hv
      exact ⟨List.nil_suffix, by simp⟩ }
  | c :: t =>
    simp only [parseNumExp] at h
    split at h
    · -- exponent marker
      match t with
      | [] => cases h
      | d :: t2 =>
        dsimp only at h
        split at h
        · split at h
          · cases h
          · injection h with h'
            injection h' with hv hr
            subst hr
            subst hv
            refine ⟨?_, by simp⟩
            exact (List.dropWhile_suffix _).trans ((List.suffix_cons d t2).trans (List.suffix_cons c _))
        · split at h
          · split at h
            · cases h
            · injection h with h'
              injection h' with hv hr
              subst hr
              subst hv
              refine ⟨?_, by simp⟩
              exact (List.dropWhile_suffix _).trans ((List.suffix_cons d t2).trans (List.suffix_cons c _))
          · split at h
            · cases h
            · injection h with h'
              injection h' with hv hr
              subst hr
              subst hv
              refine ⟨?_, by simp⟩
              exact (List.dropWhile_suffix _).trans (List.suffix_cons c _)
    · split at h <;> {
        injection h with h'
        injection h' with hv hr
        subst hr
        subst hv
        exact ⟨List.suffix_refl _, by simp⟩ }

theorem parseNumFrac_props (neg : Bool) (ip : List Char) (cs2 : List Char) (v : Json)
    (r : List Char) (h : parseNumFrac neg ip cs2 = some (v, r)) :
    r <:+ cs2 ∧ ∀ o, v ≠ Json.obj o := by
  match cs2 with
  | [] =>
    simp only [parseNumFrac] at h
    exact parseNumExp_props _ _ _ _ _ _ _ h
  | c :: t =>
    simp only [parseNumFrac] at h
    split at h
    · split at h
      · cases h
      · have := parseNumExp_props _ _ _ _ _ _ _ h
        exact ⟨this.1.trans ((List.dropWhile_suffix _).trans (List.suffix_cons c t)), this.2⟩
    · exact parseNumExp_props _ _ _ _ _ _ _ h

theorem parseNumber_props (cs : List Char) (v : Json) (r : List Char)
    (h : parseNumber cs = some (v, r)) : r <:+ cs ∧ ∀ o, v ≠ Json.obj o := by
  have signed : ∀ (neg : Bool) (cs1 : List Char) (v : Json) (r : List Char),
      parseNumSigned neg cs1 = some (v, r) → r <:+ cs1 ∧ ∀ o, v ≠ Json.obj o := by
    intro neg cs1 v r h
    unfold parseNumSigned at h
    split at h
    · cases h
    · split at h
      · cases h
      · have := parseNumFrac_props _ _ _ _ _ h
        exact ⟨this.1.trans (List.dropWhile_suffix _), this.2⟩
  match cs with
  | [] =>
    simp only [parseNumber] at h
    exact signed _ _ _ _ h
  | c :: t =>
    simp only [parseNumber] at h
    split at h
    · have := signed _ _ _ _ h
      exact ⟨this.1.trans (List.suffix_cons c t), this.2⟩
    · exact signed _ _ _ _ h

/-- A successful parse consumes a prefix of the input: the rest is a suffix,
and an object parse stops immediately after a closing brace. -/
theorem parse_suffix (f : Nat) :
    (∀ cs v r, parseValue f cs = some (v, r) →
      r <:+ cs ∧ ∀ o, v = Json.obj o → rbrace :: r <:+ cs) ∧
    (∀ acc cs o r, parseMembers1 f acc cs = some (o, r) → rbrace :: r <:+ cs) ∧
    (∀ acc cs l r, parseItems1 f acc cs = some (l, r) → r <:+ cs) := by
  induction f with
  | zero =>
    refine ⟨?_, ?_, ?_⟩
    · intro cs v r h
      simp [parseValue] at h
    · intro acc cs o r h
      simp [parseMembers1] at h
    · intro acc cs l r h
      simp [parseItems1] at h
  | succ f ih =>
    obtain ⟨ihV, ihM, ihI⟩ := ih
    refine ⟨?_, ?_, ?_⟩
    · intro cs v r h
      simp only [parseValue] at h
      cases hsw : skipWs cs with
      | nil =>
        rw [hsw] at h
        simp at h
      | cons c rest =>
        rw [hsw] at h
        dsimp only at h
        have hrest : rest <:+ cs := tail_suffix_of_eq hsw
        have hall : c :: rest <:+ cs := skipWs_suffix_of_eq hsw
        by_cases hc : c = lbrace
        · rw [if_pos hc] at h
          cases hsw2 : skipWs rest with
          | nil =>
            rw [hsw2] at h
            simp at h
          | cons c2 rest2 =>
            rw [hsw2] at h
            dsimp only at h
            by_cases hc2 : c2 = rbrace
            · rw [if_pos hc2] at h
              injection h with h'
              injection h' with hv hr
              subst hr
              refine ⟨(tail_suffix_of_eq hsw2).trans hrest, fun o ho => ?_⟩
              subst hc2
              exact (skipWs_suffix_of_eq hsw2).trans hrest
            · rw [if_neg hc2] at h
              cases hm : parseMembers1 f [] rest with
              | none =>
                rw [hm] at h
                simp at h
              | some p =>
                rw [hm] at h
                obtain ⟨fs, r2⟩ := p
                dsimp only at h
                injection h with h'
                injection h' with hv hr
                subst hr
                have hclose := ihM [] rest fs r2 hm
                exact ⟨((List.suffix_cons rbrace r2).trans hclose).trans hrest,
                  fun o ho => hclose.trans hrest⟩
        · rw [if_neg hc] at h
          by_cases hb : c = '['
          · rw [if_pos hb] at h
            cases hsw2 : skipWs rest with
            | nil =>
              rw [hsw2] at h
              simp at h
            | cons c2 rest2 =>
              rw [hsw2] at h
              dsimp only at h
              by_cases hc2 : c2 = ']'
              · rw [if_pos hc2] at h
                injection h with h'
                injection h' with hv hr
                subst hr
                subst hv
                exact ⟨(tail_suffix_of_eq hsw2).trans hrest, by simp⟩
              · rw [if_neg hc2] at h
                cases hm : parseItems1 f [] rest with
                | none =>
                  rw [hm] at h
                  simp at h
                | some p =>
                  rw [hm] at h
                  obtain ⟨l, r2⟩ := p
                  dsimp only at h
                  injection h with h'
                  injection h' with hv hr
                  subst hr
                  subst hv
                  exact ⟨(ihI [] rest l r2 hm).trans hrest, by simp⟩
          · rw [if_neg hb] at h
            by_cases hq : c = dquote
            · rw [if_pos hq] at h
              cases hs : parseStringBody f [] rest with
              | none =>
                rw [hs] at h
                simp at h
              | some p =>
                rw [hs] at h
                obtain ⟨s, r2⟩ := p
                dsimp only at h
                injection h with h'
                injection h' with hv hr
                subst hr
                subst hv
                exact ⟨(parseStringBody_suffix f [] rest s r2 hs).trans hrest, by simp⟩
            · rw [if_neg hq] at h
              by_cases ht : c = 't'
              · rw [if_pos ht] at h
                by_cases hpre : ['r', 'u', 'e'].isPrefixOf rest
                · rw [if_pos hpre] at h
                  injection h with h'
                  injection h' with hv hr
                  subst hr
                  subst hv
                  exact ⟨(List.drop_suffix 3 rest).trans hrest, by simp⟩
                · rw [if_neg hpre] at h
                  cases h
              · rw [if_neg ht] at h
                by_cases hfl : c = 'f'
                · rw [if_pos hfl] at h
                  by_cases hpre : ['a', 'l', 's', 'e'].isPrefixOf rest
                  · rw [if_pos hpre] at h
                    injection h with h'
                    injection h' with hv hr
                    subst hr
                    subst hv
                    exact ⟨(List.drop_suffix 4 rest).trans hrest, by simp⟩
                  · rw [if_neg hpre] at h
                    cases h
                · rw [if_neg hfl] at h
                  by_cases hn : c = 'n'
                  · rw [if_pos hn] at h
                    by_cases hpre : ['u', 'l', 'l'].isPrefixOf rest
                    · rw [if_pos hpre] at h
                      injection h with h'
                      injection h' with hv hr
                      subst hr
                      subst hv
                      exact ⟨(List.drop_suffix 3 rest).trans hrest, by simp⟩
                    · rw [if_neg hpre] at h
                      cases h
                  · rw [if_neg hn] at h
                    by_cases hd : c = '-' ∨ c.isDigit
                    · rw [if_pos hd] at h
                      have hp := parseNumber_props (c :: rest) v r h
                      exact ⟨hp.1.trans hall, fun o ho => absurd ho (hp.2 o)⟩
                    · rw [if_neg hd] at h
                      cases h
    · intro acc cs o r h
      simp only [parseMembers1] at h
      cases hsw : skipWs cs with
      | nil =>
        rw [hsw] at h
        simp at h
      | cons c rest =>
        rw [hsw] at h
        dsimp only at h
        have hrest : rest <:+ cs := tail_suffix_of_eq hsw
        by_cases hq : c = dquote
        · rw [if_pos hq] at h
          cases hs : parseStringBody f [] rest with
          | none =>
            rw [hs] at h
            simp at h
          | some p =>
            rw [hs] at h
            obtain ⟨k, cs2⟩ := p
            dsimp only at h
            have hcs2 : cs2 <:+ cs := (parseStringBody_suffix f [] rest k cs2 hs).trans hrest
            cases hsw2 : skipWs cs2 with
            | nil =>
              rw [hsw2] at h
              simp at h
            | cons c1 cs3 =>
              rw [hsw2] at h
              dsimp only at h
              have hcs3 : cs3 <:+ cs := (tail_suffix_of_eq hsw2).trans hcs2
              by_cases hcol : c1 = ':'
              · rw [if_pos hcol] at h
                cases hv : parseValue f cs3 with
                | none =>
                  rw [hv] at h
                  simp at h
                | some p2 =>
                  rw [hv] at h
                  obtain ⟨v2, cs4⟩ := p2
                  dsimp only at h
                  have hcs4 : cs4 <:+ cs := ((ihV cs3 v2 cs4 hv).1).trans hcs3
                  cases hsw3 : skipWs cs4 with
                  | nil =>
                    rw [hsw3] at h
                    simp at h
                  | cons c3 cs5 =>
                    rw [hsw3] at h
                    dsimp only at h
                    by_cases hcm : c3 = ','
                    · rw [if_pos hcm] at h
                      exact (ihM _ cs5 o r h).trans ((tail_suffix_of_eq hsw3).trans hcs4)
                    · rw [if_neg hcm] at h
                      by_cases hcb : c3 = rbrace
                      · rw [if_pos hcb] at h
                        injection h with h'
                        injection h' with ho hr
                        subst hr
                        subst hcb
                        exact (skipWs_suffix_of_eq hsw3).trans hcs4
                      · rw [if_neg hcb] at h
                        cases h
              · rw [if_neg hcol] at h
                cases h
        · rw [if_neg hq] at h
          cases h
    · intro acc cs l r h
      simp only [parseItems1] at h
      cases hv : parseValue f cs with
      | none =>
        rw [hv] at h
        simp at h
      | some p =>
        rw [hv] at h
        obtain ⟨v2, r2⟩ := p
        dsimp only at h
        have hr2 : r2 <:+ cs := (ihV cs v2 r2 hv).1
        cases hsw : skipWs r2 with
        | nil =>
          rw [hsw] at h
          simp at h
        | cons c r3 =>
          rw [hsw] at h
          dsimp only at h
          by_cases hcm : c = ','
          · rw [if_pos hcm] at h
            exact (ihI _ r3 l r h).trans ((tail_suffix_of_eq hsw).trans hr2)
          · rw [if_neg hcm] at h
            by_cases hcb : c = ']'
            · rw [if_pos hcb] at h
              injection h with h'
              injection h' with hl hr
              subst hr
              exact (tail_suffix_of_eq hsw).trans hr2
            · rw [if_neg hcb] at h
              cases h

theorem dropWhile_head_not {p : Char → Bool} :
    ∀ (l : List Char) (c : Char) (t : List Char), l.dropWhile p = c :: t → p c = false := by
  intro l
  induction l with
  | nil =>
    intro c t h
    simp at h
  | cons a l ih =>
    intro c t h
    by_cases hp : p a
    · rw [List.dropWhile_cons, if_pos hp] at h
      exact ih c t h
    · rw [List.dropWhile_cons, if_neg hp] at h
      injection h with h1 _
      subst h1
      simpa using hp

theorem jsonWs_pyWs {c : Char} (h : jsonWs c = true) : pyWs c = true := by
  simp only [jsonWs, Bool.or_eq_true, decide_eq_true_eq] at h
  simp only [pyWs, Bool.or_eq_true, decide_eq_true_eq]
  tauto

/-- The stripped text has no leading whitespace. -/
theorem stripChars_head {cs t : List Char} {c : Char} (h : stripChars cs = c :: t) :
    pyWs c = false := by
  unfold stripChars at h
  have hpre := List.rdropWhile_prefix (p := pyWs) (l := cs.dropWhile pyWs)
  rw [h] at hpre
  obtain ⟨s2, hs2⟩ := hpre
  exact dropWhile_head_not cs c (t ++ s2) (by rw [← hs2]; rfl)

/-- The stripped text has no trailing whitespace. -/
theorem stripChars_last {cs pre : List Char} {c : Char} (h : stripChars cs = pre ++ [c]) :
    pyWs c = false := by
  unfold stripChars at h
  have hne : (cs.dropWhile pyWs).rdropWhile pyWs ≠ [] := by
    rw [h]
    simp
  have hlast := List.rdropWhile_last_not (p := pyWs) (l := cs.dropWhile pyWs) hne
  have h1 : ((cs.dropWhile pyWs).rdropWhile pyWs).getLast? = some c := by
    rw [h]
    simp
  rw [List.getLast?_eq_getLast _ hne] at h1
  injection h1 with h2
  rw [h2] at hlast
  simpa using hlast

/-- Skipping decoder whitespace is the identity on stripped text. -/
theorem skipWs_stripChars (cs : List Char) : skipWs (stripChars cs) = stripChars cs := by
  cases hs : stripChars cs with
  | nil => rfl
  | cons c t =>
    have hc : pyWs c = false := stripChars_head hs
    have hj : jsonWs c = false := by
      cases hjc : jsonWs c
      · rfl
      · rw [jsonWs_pyWs hjc] at hc
        cases hc
    unfold skipWs
    rw [List.dropWhile_cons, if_neg (by simp [hj])]

/-- A successful parse yields an object exactly when the input starts (after
whitespace) with an opening brace. -/
theorem parseValue_obj_iff (f : Nat) (cs : List Char) (v : Json) (r : List Char)
    (h : parseValue f cs = some (v, r)) :
    ((∃ t, skipWs cs = lbrace :: t) → ∃ o, v = Json.obj o) ∧
    ((∃ o, v = Json.obj o) → ∃ t, skipWs cs = lbrace :: t) := by
  match f with
  | 0 => simp [parseValue] at h
  | f + 1 =>
    simp only [parseValue] at h
    cases hsw : skipWs cs with
    | nil =>
      rw [hsw] at h
      simp at h
    | cons c rest =>
      rw [hsw] at h
      dsimp only at h
      by_cases hc : c = lbrace
      · subst hc
        refine ⟨fun _ => ?_, fun _ => ⟨rest, rfl⟩⟩
        cases hsw2 : skipWs rest with
        | nil =>
          rw [hsw2] at h
          simp at h
        | cons c2 rest2 =>
          rw [hsw2] at h
          dsimp only at h
          by_cases hc2 : c2 = rbrace
          · rw [if_pos hc2] at h
            injection h with h'
            injection h' with hv _
            exact ⟨[], hv.symm⟩
          · rw [if_neg hc2] at h
            cases hm : parseMembers1 f [] rest with
            | none =>
              rw [hm] at h
              simp at h
            | some p =>
              rw [hm] at h
              obtain ⟨fs, r2⟩ := p
              dsimp only at h
              injection h with h'
              injection h' with hv _
              exact ⟨fs, hv.symm⟩
      · rw [if_neg hc] at h
        refine ⟨fun ⟨t, ht⟩ => ?_, fun ⟨o, ho⟩ => ?_⟩
        · injection ht with h1 _
          exact absurd h1 hc
        · subst ho
          exfalso
          by_cases hb : c = '['
          · rw [if_pos hb] at h
            cases hsw2 : skipWs rest with
            | nil =>
              rw [hsw2] at h
              simp at h
            | cons c2 rest2 =>
              rw [hsw2] at h
              dsimp only at h
              by_cases hc2 : c2 = ']'
              · rw [if_pos hc2] at h
                injection h with h'
                injection h' with hv _
                cases hv
              · rw [if_neg hc2] at h
                cases hm : parseItems1 f [] rest with
                | none =>
                  rw [hm] at h
                  simp at h
                | some p =>
                  rw [hm] at h
                  obtain ⟨l, r2⟩ := p
                  dsimp only at h
                  injection h with h'
                  injection h' with hv _
                  cases hv
          · rw [if_neg hb] at h
            by_cases hq : c = dquote
            · rw [if_pos hq] at h
              cases hs : parseStringBody f [] rest with
              | none =>
                rw [hs] at h
                simp at h
              | some p =>
                rw [hs] at h
                obtain ⟨s, r2⟩ := p
                dsimp only at h
                injection h with h'
                injection h' with hv _
                cases hv
            · rw [if_neg hq] at h
              by_cases ht : c = 't'
              · rw [if_pos ht] at h
                by_cases hpre : ['r', 'u', 'e'].isPrefixOf rest
                · rw [if_pos hpre] at h
                  injection h with h'
                  injection h' with hv _
                  cases hv
                · rw [if_neg hpre] at h
                  cases h
              · rw [if_neg ht] at h
                by_cases hfl : c = 'f'
                · rw [if_pos hfl] at h
                  by_cases hpre : ['a', 'l', 's', 'e'].isPrefixOf rest
                  · rw [if_pos hpre] at h
                    injection h with h'
                    injection h' with hv _
                    cases hv
                  · rw [if_neg hpre] at h
                    cases h
                · rw [if_neg hfl] at h
                  by_cases hn : c = 'n'
                  · rw [if_pos hn] at h
                    by_cases hpre : ['u', 'l', 'l'].isPrefixOf rest
                    · rw [if_pos hpre] at h
                      injection h with h'
                      injection h' with hv _
                      cases hv
                    · rw [if_neg hpre] at h
                      cases h
                  · rw [if_neg hn] at h
                    by_cases hd : c = '-' ∨ c.isDigit
                    · rw [if_pos hd] at h
                      exact (parseNumber_props (c :: rest) _ r h).2 o rfl
                    · rw [if_neg hd] at h
                      cases h

/-- A successful object load of stripped text forces the brace-delimiter
guard of `_extract_json`: the stripped text starts with an opening brace and
ends with a closing brace. -/
theorem jsonLoads_obj_braces {cs : List Char} {o : List (String × Json)}
    (h : jsonLoads (stripChars cs) = some (Json.obj o)) :
    (stripChars cs).head? = some lbrace ∧ (stripChars cs).getLast? = some rbrace := by
  unfold jsonLoads at h
  cases hp : parseValue (2 * (stripChars cs).length + 2) (stripChars cs) with
  | none =>
    rw [hp] at h
    cases h
  | some p =>
    rw [hp] at h
    obtain ⟨v, rest⟩ := p
    dsimp only at h
    by_cases hrest : skipWs rest = []
    · rw [if_pos hrest] at h
      injection h with hv
      subst hv
      obtain ⟨t, hhead⟩ := (parseValue_obj_iff _ _ _ _ hp).2 ⟨o, rfl⟩
      rw [skipWs_stripChars] at hhead
      refine ⟨by rw [hhead]; rfl, ?_⟩
      have hsuffix := ((parse_suffix _).1 _ _ _ hp).2 o rfl
      have hws : ∀ x ∈ rest, jsonWs x := by
        intro x hx
        exact List.dropWhile_eq_nil_iff.mp hrest x hx
      cases hr : rest with
      | nil =>
        rw [hr] at hsuffix
        obtain ⟨pre, hpre⟩ := hsuffix
        rw [← hpre]
        simp
      | cons x xs =>
        exfalso
        subst hr
        obtain ⟨pre, hpre⟩ := hsuffix
        have hne : (rbrace :: x :: xs) ≠ [] := by simp
        have hstrip : stripChars cs =
            (pre ++ (rbrace :: x :: xs).dropLast) ++ [(rbrace :: x :: xs).getLast hne] := by
          rw [List.append_assoc, List.dropLast_append_getLast hne, hpre]
        have hnws := stripChars_last hstrip
        have hmem : (rbrace :: x :: xs).getLast hne ∈ x :: xs := by
          rw [List.getLast_cons (by simp : (x :: xs) ≠ [])]
          exact List.getLast_mem _
        rw [jsonWs_pyWs (hws _ hmem)] at hnws
        cases hnws
    · rw [if_neg hrest] at h
      cases h

/-- Any candidate found by the brace-block search starts with an opening
brace. -/
theorem braceSearch_shape :
    ∀ (f : Nat) (cs cand : List Char), braceSearch f cs = some cand →
      ∃ inner, cand = lbrace :: inner := by
  intro f
  induction f with
  | zero =>
    intro cs cand h
    simp [braceSearch] at h
  | succ f ih =>
    intro cs cand h
    match cs with
    | [] => simp [braceSearch] at h
    | c :: rest =>
      simp only [braceSearch] at h
      by_cases hc : c = lbrace
      · rw [if_pos hc] at h
        cases hm : braceMatchTail (rest.length + 1) [] rest with
        | none =>
          rw [hm] at h
          exact ih rest cand h
        | some p =>
          rw [hm] at h
          injection h with h'
          exact ⟨p.1 ++ [rbrace], h'.symm⟩
      · rw [if_neg hc] at h
        exact ih rest cand h

/-- Any candidate found by the fenced-block search starts with an opening
brace. -/
theorem cbSearch_shape :
    ∀ (f : Nat) (cs cand : List Char), cbSearch f cs = some cand →
      ∃ inner, cand = lbrace :: inner := by
  have hat : ∀ (cs cand : List Char), cbAt cs = some cand → ∃ inner, cand = lbrace :: inner := by
    intro cs cand h
    unfold cbAt at h
    dsimp only at h
    cases hdw : (if ['j', 's', 'o', 'n'].isPrefixOf cs then cs.drop 4 else cs).dropWhile pyWs with
    | nil =>
      rw [hdw] at h
      cases h
    | cons c rest =>
      rw [hdw] at h
      dsimp only at h
      by_cases hc : c = lbrace
      · rw [if_pos hc] at h
        cases hf : cbFindClose (rest.length + 1) [] rest with
        | none =>
          rw [hf] at h
          cases h
        | some inner =>
          rw [hf] at h
          injection h with h'
          exact ⟨inner ++ [rbrace], h'.symm⟩
      · rw [if_neg hc] at h
        cases h
  intro f
  induction f with
  | zero =>
    intro cs cand h
    simp [cbSearch] at h
  | succ f ih =>
    intro cs cand h
    match cs with
    | [] => simp [cbSearch] at h
    | c :: rest =>
      simp only [cbSearch] at h
      by_cases hp : threeTicks.isPrefixOf (c :: rest)
      · rw [if_pos hp] at h
        cases ha : cbAt ((c :: rest).drop 3) with
        | none =>
          rw [ha] at h
          exact ih rest cand h
        | some cand2 =>
          rw [ha] at h
          injection h with h'
          subst h'
          exact hat _ _ ha
      · rw [if_neg hp] at h
        exact ih rest cand h

/-- `json.loads` on a brace-headed candidate yields only objects. -/
theorem jsonLoads_brace_head {inner : List Char} {v : Json}
    (h : jsonLoads (lbrace :: inner) = some v) : ∃ o, v = Json.obj o := by
  unfold jsonLoads at h
  cases hp : parseValue (2 * (lbrace :: inner).length + 2) (lbrace :: inner) with
  | none =>
    rw [hp] at h
    cases h
  | some p =>
    rw [hp] at h
    obtain ⟨v2, rest⟩ := p
    dsimp only at h
    by_cases hrest : skipWs rest = []
    · rw [if_pos hrest] at h
      injection h with hv
      subst hv
      refine (parseValue_obj_iff _ _ _ _ hp).1 ⟨inner, ?_⟩
      unfold skipWs
      rw [List.dropWhile_cons, if_neg (by decide)]
    · rw [if_neg hrest] at h
      cases h

/-- `_extract_json` returns only objects (or nothing): every branch loads a
brace-delimited candidate. -/
theorem extractJson_obj {cs : List Char} {v : Json} (h : extractJson cs = some v) :
    ∃ o, v = Json.obj o := by
  unfold extractJson at h
  dsimp only at h
  by_cases hg : (stripChars cs).head? = some lbrace ∧ (stripChars cs).getLast? = some rbrace
  · rw [if_pos hg] at h
    cases hl : jsonLoads (stripChars cs) with
    | some w =>
      rw [hl] at h
      dsimp only at h
      injection h with h'
      subst h'
      obtain ⟨t, hhead⟩ : ∃ t, stripChars cs = lbrace :: t := by
        cases hsc : stripChars cs with
        | nil =>
          rw [hsc] at hg
          cases hg.1
        | cons c0 t0 =>
          rw [hsc] at hg
          injection hg.1 with h1
          exact ⟨t0, by rw [h1]⟩
      rw [hhead] at hl
      exact jsonLoads_brace_head hl
    | none =>
      rw [hl] at h
      dsimp only at h
      cases hcb : codeBlockJson cs with
      | some w =>
        rw [hcb] at h
        injection h with h'
        subst h'
        unfold codeBlockJson at hcb
        cases hsearch : cbSearch (cs.length + 1) cs with
        | none =>
          rw [hsearch] at hcb
          cases hcb
        | some cand =>
          rw [hsearch] at hcb
          obtain ⟨inner, hin⟩ := cbSearch_shape _ _ _ hsearch
          subst hin
          exact jsonLoads_brace_head hcb
      | none =>
        rw [hcb] at h
        unfold braceJson at h
        cases hsearch : braceSearch (cs.length + 1) cs with
        | none =>
          rw [hsearch] at h
          cases h
        | some cand =>
          rw [hsearch] at h
          obtain ⟨inner, hin⟩ := braceSearch_shape _ _ _ hsearch
          subst hin
          exact jsonLoads_brace_head h
  · rw [if_neg hg] at h
    dsimp only at h
    cases hcb : codeBlockJson cs with
    | some w =>
      rw [hcb] at h
      injection h with h'
      subst h'
      unfold codeBlockJson at hcb
      cases hsearch : cbSearch (cs.length + 1) cs with
      | none =>
        rw [hsearch] at hcb
        cases hcb
      | some cand =>
        rw [hsearch] at hcb
        obtain ⟨inner, hin⟩ := cbSearch_shape _ _ _ hsearch
        subst hin
        exact jsonLoads_brace_head hcb
    | none =>
      rw [hcb] at h
      unfold braceJson at h
      cases hsearch : braceSearch (cs.length + 1) cs with
      | none =>
        rw [hsearch] at h
        cases h
      | some cand =>
        rw [hsearch] at h
        obtain ⟨inner, hin⟩ := braceSearch_shape _ _ _ hsearch
        subst hin
        exact jsonLoads_brace_head h

/-- When the whole stripped text loads as an object, the first branch of
`_extract_json` fires and returns exactly that object. -/
theorem extractJson_of_loads {cs : List Char} {o : List (String × Json)}
    (h : jsonLoads (stripChars cs) = some (Json.obj o)) :
    extractJson cs = some (Json.obj o) := by
  obtain ⟨hh, hl⟩ := jsonLoads_obj_braces h
  unfold extractJson
  dsimp only
  rw [if_pos ⟨hh, hl⟩, h]

/-- When the stripped text loads as a non-empty object, `normalize` runs the
structured branch (coercion plus validation) on exactly that object. -/
theorem normalize_structured {cs : List Char} {o : List (String × Json)}
    (h : jsonLoads (stripChars cs) = some (Json.obj o)) (hne : o ≠ []) :
    normalize cs = normalizeWithObj cs o := by
  unfold normalize
  rw [extractJson_of_loads h]
  dsimp only
  rw [if_neg (by simp [hne])]

/-! ## Claim C6 — the empty object falls through to the fallback -/

/-- C6 counterexample: the two-character input consisting of an empty JSON
object parses, stripped and whole, as a single JSON object — and
`_extract_json` even returns it — yet `normalize` takes the
no-parseable-JSON fallback (validity false with the extraction-failure
violation), because `if extracted:` conflates the empty dict with `None`. -/
theorem normalize_emptyObject_fallback :
    jsonLoads (stripChars emptyObjText) = some (Json.obj []) ∧
    extractJson emptyObjText = some (Json.obj []) ∧
    normalize emptyObjText = normalizeFallback emptyObjText ∧
    alookup (normalize emptyObjText) "_valid" = some (Json.bool false) ∧
    alookup (normalize emptyObjText) "_violations" =
      some (Json.arr [Json.str "JSON 추출 실패: 원문이 JSON 형식이 아님"]) :=
  ⟨rfl, rfl, rfl, rfl, rfl⟩

/-- C6 (amended): for every input whose full stripped text parses as a single
non-empty JSON object, `normalize` uses exactly that parsed object — running
the coercion-and-validation branch — and does not take the
no-parseable-JSON fallback.  (The claim as stated fails only on the empty
object, see the counterexample.) -/
theorem normalize_uses_parsed_object (cs : List Char) (o : List (String × Json))
    (h : jsonLoads (stripChars cs) = some (Json.obj o)) (hne : o ≠ []) :
    normalize cs = normalizeWithObj cs o :=
  normalize_structured h hne

/-- Witness for C6 at a concrete one-field object. -/
theorem normalize_uses_parsed_object_witness :
    normalize objTextA = normalizeWithObj objTextA [("a", Json.int 1)] :=
  normalize_uses_parsed_object objTextA [("a", Json.int 1)] rfl (by simp)

/-! ## Claim C7 — the six primary fields are always present and typed -/

theorem coerceToSchema_fields (data : List (String × Json)) :
    (∃ s, alookup (coerceToSchema data) "title" = some (Json.str s)) ∧
    (∃ s, alookup (coerceToSchema data) "summary" = some (Json.str s)) ∧
    (∃ l, alookup (coerceToSchema data) "steps" = some (Json.arr l)) ∧
    (∃ l, alookup (coerceToSchema data) "artifacts" = some (Json.arr l)) ∧
    (∃ l, alookup (coerceToSchema data) "risks" = some (Json.arr l)) ∧
    (∃ l, alookup (coerceToSchema data) "next" = some (Json.arr l)) := by
  unfold coerceToSchema
  dsimp only
  split <;> split <;> split <;> split <;>
    exact ⟨⟨_, rfl⟩, ⟨_, rfl⟩, ⟨_, rfl⟩, ⟨_, rfl⟩, ⟨_, rfl⟩, ⟨_, rfl⟩⟩

theorem normalizeWithObj_fields (cs : List Char) (data : List (String × Json)) :
    (∃ s, alookup (normalizeWithObj cs data) "title" = some (Json.str s)) ∧
    (∃ s, alookup (normalizeWithObj cs data) "summary" = some (Json.str s)) ∧
    (∃ l, alookup (normalizeWithObj cs data) "steps" = some (Json.arr l)) ∧
    (∃ l, alookup (normalizeWithObj cs data) "artifacts" = some (Json.arr l)) ∧
    (∃ l, alookup (normalizeWithObj cs data) "risks" = some (Json.arr l)) ∧
    (∃ l, alookup (normalizeWithObj cs data) "next" = some (Json.arr l)) := by
  obtain ⟨⟨t, ht⟩, ⟨s, hs⟩, ⟨l1, h1⟩, ⟨l2, h2⟩, ⟨l3, h3⟩, ⟨l4, h4⟩⟩ := coerceToSchema_fields data
  unfold normalizeWithObj
  dsimp only
  refine ⟨⟨t, ?_⟩, ⟨s, ?_⟩, ⟨l1, ?_⟩, ⟨l2, ?_⟩, ⟨l3, ?_⟩, ⟨l4, ?_⟩⟩ <;>
    rw [alookup_dSet_ne _ _ _ _ (by decide), alookup_dSet_ne _ _ _ _ (by decide),
      alookup_dSet_ne _ _ _ _ (by decide)] <;>
    assumption

theorem normalizeFallback_fields (cs : List Char) :
    (∃ s, alookup (normalizeFallback cs) "title" = some (Json.str s)) ∧
    (∃ s, alookup (normalizeFallback cs) "summary" = some (Json.str s)) ∧
    (∃ l, alookup (normalizeFallback cs) "steps" = some (Json.arr l)) ∧
    (∃ l, alookup (normalizeFallback cs) "artifacts" = some (Json.arr l)) ∧
    (∃ l, alookup (normalizeFallback cs) "risks" = some (Json.arr l)) ∧
    (∃ l, alookup (normalizeFallback cs) "next" = some (Json.arr l)) :=
  ⟨⟨_, rfl⟩, ⟨_, rfl⟩, ⟨_, rfl⟩, ⟨_, rfl⟩, ⟨_, rfl⟩, ⟨_, rfl⟩⟩

/-- C7: for every input string — structured or not — the record `normalize`
returns carries all six primary fields, `title` and `summary` as strings and
the four list fields as lists, never absent and never null. -/
theorem normalize_fields_present (cs : List Char) :
    (∃ s, alookup (normalize cs) "title" = some (Json.str s)) ∧
    (∃ s, alookup (normalize cs) "summary" = some (Json.str s)) ∧
    (∃ l, alookup (normalize cs) "steps" = some (Json.arr l)) ∧
    (∃ l, alookup (normalize cs) "artifacts" = some (Json.arr l)) ∧
    (∃ l, alookup (normalize cs) "risks" = some (Json.arr l)) ∧
    (∃ l, alookup (normalize cs) "next" = some (Json.arr l)) := by
  unfold normalize
  cases he : extractJson cs with
  | none => exact normalizeFallback_fields cs
  | some v =>
    obtain ⟨o, rfl⟩ := extractJson_obj he
    dsimp only
    by_cases hne : o.isEmpty
    · rw [if_pos hne]
      exact normalizeFallback_fields cs
    · rw [if_neg hne]
      exact normalizeWithObj_fields cs o

/-! ## Claim C8 — normalizer round-trip on canonical input -/

theorem lookupIs_strE {fs : List (String × Json)} {k : String}
    (h : lookupIs fs k isStrJ = true) : ∃ s, alookup fs k = some (Json.str s) := by
  unfold lookupIs at h
  cases hl : alookup fs k with
  | none =>
    rw [hl] at h
    cases h
  | some v =>
    rw [hl] at h
    cases v with
    | str s => exact ⟨s, rfl⟩
    | null => simp [isStrJ] at h
    | bool b => simp [isStrJ] at h
    | int n => simp [isStrJ] at h
    | float q => simp [isStrJ] at h
    | arr l => simp [isStrJ] at h
    | obj fs2 => simp [isStrJ] at h

theorem lookupIs_intE {fs : List (String × Json)} {k : String}
    (h : lookupIs fs k isIntJ = true) : ∃ n, alookup fs k = some (Json.int n) := by
  unfold lookupIs at h
  cases hl : alookup fs k with
  | none =>
    rw [hl] at h
    cases h
  | some v =>
    rw [hl] at h
    cases v with
    | int n => exact ⟨n, rfl⟩
    | null => simp [isIntJ] at h
    | bool b => simp [isIntJ] at h
    | str s => simp [isIntJ] at h
    | float q => simp [isIntJ] at h
    | arr l => simp [isIntJ] at h
    | obj fs2 => simp [isIntJ] at h

theorem lookupArrAllE {o : List (String × Json)} {k : String} {p : Json → Bool}
    (h : lookupArrAll o k p = true) :
    ∃ l, alookup o k = some (Json.arr l) ∧ l.all p = true := by
  unfold lookupArrAll at h
  cases hl : alookup o k with
  | none =>
    rw [hl] at h
    cases h
  | some v =>
    rw [hl] at h
    cases v with
    | arr l => exact ⟨l, rfl, h⟩
    | null => simp at h
    | bool b => simp at h
    | int n => simp at h
    | float q => simp at h
    | str s => simp at h
    | obj fs2 => simp at h

theorem coerceToSchema_canonical (data : List (String × Json)) (t s : String)
    (ls la lr ln : List Json)
    (ht : alookup data "title" = some (Json.str t))
    (hs : alookup data "summary" = some (Json.str s))
    (hst : alookup data "steps" = some (Json.arr ls))
    (har : alookup data "artifacts" = some (Json.arr la))
    (hri : alookup data "risks" = some (Json.arr lr))
    (hnx : alookup data "next" = some (Json.arr ln)) :
    coerceToSchema data =
      [("title", Json.str t), ("summary", Json.str s),
       ("steps", Json.arr (coerceSteps ls)), ("artifacts", Json.arr (coerceArtifacts la)),
       ("risks", Json.arr (coerceRisks lr)),
       ("next", Json.arr (ln.map (fun n => Json.str (pyStr n))))] := by
  have h1 : dGetD data "title" (dGetD data "제목" (Json.str "")) = Json.str t := by
    unfold dGetD
    rw [ht]
    rfl
  have h2 : dGetD data "summary"
      (dGetD data "요약" (dGetD data "description" (dGetD data "설명" (Json.str "")))) =
      Json.str s := by
    unfold dGetD
    rw [hs]
    rfl
  have h3 : dGetD data "steps" (dGetD data "단계" (Json.arr [])) = Json.arr ls := by
    unfold dGetD
    rw [hst]
    rfl
  have h4 : dGetD data "artifacts" (dGetD data "산출물" (Json.arr [])) = Json.arr la := by
    unfold dGetD
    rw [har]
    rfl
  have h5 : dGetD data "risks" (dGetD data "위험" (Json.arr [])) = Json.arr lr := by
    unfold dGetD
    rw [hri]
    rfl
  have h6 : dGetD data "next" (dGetD data "다음" (Json.arr [])) = Json.arr ln := by
    unfold dGetD
    rw [hnx]
    rfl
  unfold coerceToSchema
  dsimp only
  rw [h1, h2, h3, h4, h5, h6]
  rfl

theorem stepViolations_coerced :
    ∀ (l : List Json) (i j : Nat), stepViolations i (coerceStepsFrom j l) = [] := by
  intro l
  induction l with
  | nil =>
    intro i j
    rfl
  | cons s rest ih =>
    intro i j
    cases s with
    | obj fs => simp [coerceStepsFrom, stepViolations, alookup, ih]
    | str s2 => simp [coerceStepsFrom, stepViolations, alookup, ih]
    | null => simpa [coerceStepsFrom] using ih i (j + 1)
    | bool b => simpa [coerceStepsFrom] using ih i (j + 1)
    | int n => simpa [coerceStepsFrom] using ih i (j + 1)
    | float q => simpa [coerceStepsFrom] using ih i (j + 1)
    | arr l2 => simpa [coerceStepsFrom] using ih i (j + 1)

theorem validateSchema_coerced (t s : String) (ls la lr ln : List Json) :
    validateSchema
      [("title", Json.str t), ("summary", Json.str s),
       ("steps", Json.arr (coerceSteps ls)), ("artifacts", Json.arr (coerceArtifacts la)),
       ("risks", Json.arr (coerceRisks lr)),
       ("next", Json.arr (ln.map (fun n => Json.str (pyStr n))))] = [] := by
  show ([] : List String) ++ stepViolations 0 (coerceSteps ls) = []
  rw [coerceSteps]
  simpa using stepViolations_coerced ls 0 0

theorem pyEq_arr_nil : PyEq (Json.arr []) (Json.arr []) :=
  PyEq.arr rfl (fun i h1 _ => absurd h1 (by simp))

theorem pyEq_arr_cons {x y : Json} {a b : List Json} (hxy : PyEq x y)
    (hab : PyEq (Json.arr a) (Json.arr b)) :
    PyEq (Json.arr (x :: a)) (Json.arr (y :: b)) := by
  cases hab with
  | arr hlen hget =>
    refine PyEq.arr (by simp [hlen]) ?_
    intro i h1 h2
    match i with
    | 0 => exact hxy
    | Nat.succ i => exact hget i (by simpa using h1) (by simpa using h2)

/-- Coercion of a canonical `steps` item compares Python-equal to the item:
it carries the same three key/value pairs, merely in a fixed key order. -/
theorem stepElem_pyEq {fs : List (String × Json)} (h : isCanonicalStep (Json.obj fs) = true)
    (d : Json) :
    PyEq (Json.obj
      [("step", dGetD fs "step" d),
       ("action", Json.str (pyStr (dGetD fs "action" (dGetD fs "name" (Json.str ""))))),
       ("details", Json.str (pyStr (dGetD fs "details"
         (dGetD fs "description" (dGetD fs "detail" (Json.str ""))))))])
      (Json.obj fs) := by
  simp only [isCanonicalStep, Bool.and_eq_true, beq_iff_eq] at h
  obtain ⟨⟨⟨hlen, hstep⟩, hact⟩, hdet⟩ := h
  obtain ⟨n, hn⟩ := lookupIs_intE hstep
  obtain ⟨a, ha⟩ := lookupIs_strE hact
  obtain ⟨dd, hd⟩ := lookupIs_strE hdet
  have hvstep : dGetD fs "step" d = Json.int n := by
    unfold dGetD
    rw [hn]
    rfl
  have hvact : dGetD fs "action" (dGetD fs "name" (Json.str "")) = Json.str a := by
    unfold dGetD
    rw [ha]
    rfl
  have hvdet : dGetD fs "details" (dGetD fs "description" (dGetD fs "detail" (Json.str ""))) =
      Json.str dd := by
    unfold dGetD
    rw [hd]
    rfl
  rw [hvstep, hvact, hvdet]
  refine PyEq.obj (by simp [hlen]) ?_ ?_
  · intro k v hkv
    simp only [List.mem_cons, List.not_mem_nil, or_false] at hkv
    rcases hkv with h1 | h1 | h1 <;> injection h1 with hk hv <;> subst hk
    · rw [hn]
      rfl
    · rw [ha]
      rfl
    · rw [hd]
      rfl
  · intro k v w hkv hw
    simp only [List.mem_cons, List.not_mem_nil, or_false] at hkv
    rcases hkv with h1 | h1 | h1 <;> injection h1 with hk hv <;> subst hk <;> subst hv
    · rw [hn] at hw
      injection hw with hw2
      subst hw2
      exact PyEq.int n
    · rw [ha] at hw
      injection hw with hw2
      subst hw2
      exact PyEq.str a
    · rw [hd] at hw
      injection hw with hw2
      subst hw2
      exact PyEq.str dd

theorem coerceStepsFrom_pyEq :
    ∀ (l : List Json) (j : Nat), l.all isCanonicalStep = true →
      PyEq (Json.arr (coerceStepsFrom j l)) (Json.arr l) := by
  intro l
  induction l with
  | nil =>
    intro j _
    exact pyEq_arr_nil
  | cons s rest ih =>
    intro j hall
    rw [List.all_cons, Bool.and_eq_true] at hall
    obtain ⟨hhd, htl⟩ := hall
    cases s with
    | obj fs => exact pyEq_arr_cons (stepElem_pyEq hhd _) (ih (j + 1) htl)
    | null => simp [isCanonicalStep] at hhd
    | bool b => simp [isCanonicalStep] at hhd
    | int n => simp [isCanonicalStep] at hhd
    | float q => simp [isCanonicalStep] at hhd
    | str s2 => simp [isCanonicalStep] at hhd
    | arr l2 => simp [isCanonicalStep] at hhd

/-- Coercion of a canonical `artifacts` item compares Python-equal to the
item. -/
theorem artifactElem_pyEq {fs : List (String × Json)}
    (h : isCanonicalArtifact (Json.obj fs) = true) :
    PyEq (Json.obj
      [("type", Json.str (pyStr (dGetD fs "type" (dGetD fs "유형" (Json.str "file"))))),
       ("path", Json.str (pyStr (dGetD fs "path" (dGetD fs "경로" (Json.str "")))))])
      (Json.obj fs) := by
  simp only [isCanonicalArtifact, Bool.and_eq_true, beq_iff_eq] at h
  obtain ⟨⟨hlen, hty⟩, hpa⟩ := h
  obtain ⟨ty, hty2⟩ := lookupIs_strE hty
  obtain ⟨pa, hpa2⟩ := lookupIs_strE hpa
  have hvty : dGetD fs "type" (dGetD fs "유형" (Json.str "file")) = Json.str ty := by
    unfold dGetD
    rw [hty2]
    rfl
  have hvpa : dGetD fs "path" (dGetD fs "경로" (Json.str "")) = Json.str pa := by
    unfold dGetD
    rw [hpa2]
    rfl
  rw [hvty, hvpa]
  refine PyEq.obj (by simp [hlen]) ?_ ?_
  · intro k v hkv
    simp only [List.mem_cons, List.not_mem_nil, or_false] at hkv
    rcases hkv with h1 | h1 <;> injection h1 with hk hv <;> subst hk
    · rw [hty2]
      rfl
    · rw [hpa2]
      rfl
  · intro k v w hkv hw
    simp only [List.mem_cons, List.not_mem_nil, or_false] at hkv
    rcases hkv with h1 | h1 <;> injection h1 with hk hv <;> subst hk <;> subst hv
    · rw [hty2] at hw
      injection hw with hw2
      subst hw2
      exact PyEq.str ty
    · rw [hpa2] at hw
      injection hw with hw2
      subst hw2
      exact PyEq.str pa

theorem coerceArtifacts_pyEq :
    ∀ (l : List Json), l.all isCanonicalArtifact = true →
      PyEq (Json.arr (coerceArtifacts l)) (Json.arr l) := by
  intro l
  induction l with
  | nil =>
    intro _
    exact pyEq_arr_nil
  | cons s rest ih =>
    intro hall
    rw [List.all_cons, Bool.and_eq_true] at hall
    obtain ⟨hhd, htl⟩ := hall
    cases s with
    | obj fs =>
      show PyEq (Json.arr (Json.obj _ :: coerceArtifacts rest)) (Json.arr (Json.obj fs :: rest))
      exact pyEq_arr_cons (artifactElem_pyEq hhd) (ih htl)
    | null => simp [isCanonicalArtifact] at hhd
    | bool b => simp [isCanonicalArtifact] at hhd
    | int n => simp [isCanonicalArtifact] at hhd
    | float q => simp [isCanonicalArtifact] at hhd
    | str s2 => simp [isCanonicalArtifact] at hhd
    | arr l2 => simp [isCanonicalArtifact] at hhd

/-- Coercion of a canonical `risks` item compares Python-equal to the item. -/
theorem riskElem_pyEq {fs : List (String × Json)}
    (h : isCanonicalRisk (Json.obj fs) = true) :
    PyEq (Json.obj
      [("risk", Json.str (pyStr (dGetD fs "risk" (dGetD fs "위험" (Json.str ""))))),
       ("mitigation", Json.str (pyStr (dGetD fs "mitigation"
         (dGetD fs "대응" (dGetD fs "완화" (Json.str ""))))))])
      (Json.obj fs) := by
  simp only [isCanonicalRisk, Bool.and_eq_true, beq_iff_eq] at h
  obtain ⟨⟨hlen, hrk⟩, hmi⟩ := h
  obtain ⟨rk, hrk2⟩ := lookupIs_strE hrk
  obtain ⟨mi, hmi2⟩ := lookupIs_strE hmi
  have hvrk : dGetD fs "risk" (dGetD fs "위험" (Json.str "")) = Json.str rk := by
    unfold dGetD
    rw [hrk2]
    rfl
  have hvmi : dGetD fs "mitigation" (dGetD fs "대응" (dGetD fs "완화" (Json.str ""))) =
      Json.str mi := by
    unfold dGetD
    rw [hmi2]
    rfl
  rw [hvrk, hvmi]
  refine PyEq.obj (by simp [hlen]) ?_ ?_
  · intro k v hkv
    simp only [List.mem_cons, List.not_mem_nil, or_false] at hkv
    rcases hkv with h1 | h1 <;> injection h1 with hk hv <;> subst hk
    · rw [hrk2]
      rfl
    · rw [hmi2]
      rfl
  · intro k v w hkv hw
    simp only [List.mem_cons, List.not_mem_nil, or_false] at hkv
    rcases hkv with h1 | h1 <;> injection h1 with hk hv <;> subst hk <;> subst hv
    · rw [hrk2] at hw
      injection hw with hw2
      subst hw2
      exact PyEq.str rk
    · rw [hmi2] at hw
      injection hw with hw2
      subst hw2
      exact PyEq.str mi

theorem coerceRisks_pyEq :
    ∀ (l : List Json), l.all isCanonicalRisk = true →
      PyEq (Json.arr (coerceRisks l)) (Json.arr l) := by
  intro l
  induction l with
  | nil =>
    intro _
    exact pyEq_arr_nil
  | cons s rest ih =>
    intro hall
    rw [List.all_cons, Bool.and_eq_true] at hall
    obtain ⟨hhd, htl⟩ := hall
    cases s with
    | obj fs =>
      show PyEq (Json.arr (Json.obj _ :: coerceRisks rest)) (Json.arr (Json.obj fs :: rest))
      exact pyEq_arr_cons (riskElem_pyEq hhd) (ih htl)
    | null => simp [isCanonicalRisk] at hhd
    | bool b => simp [isCanonicalRisk] at hhd
    | int n => simp [isCanonicalRisk] at hhd
    | float q => simp [isCanonicalRisk] at hhd
    | str s2 => simp [isCanonicalRisk] at hhd
    | arr l2 => simp [isCanonicalRisk] at hhd

theorem mapStr_pyEq :
    ∀ (l : List Json), l.all isStrJ = true →
      PyEq (Json.arr (l.map (fun n => Json.str (pyStr n)))) (Json.arr l) := by
  intro l
  induction l with
  | nil =>
    intro _
    exact pyEq_arr_nil
  | cons s rest ih =>
    intro hall
    rw [List.all_cons, Bool.and_eq_true] at hall
    obtain ⟨hhd, htl⟩ := hall
    cases s with
    | str s2 =>
      show PyEq (Json.arr (Json.str (pyStr (Json.str s2)) :: _)) (Json.arr (Json.str s2 :: rest))
      exact pyEq_arr_cons (PyEq.str s2) (ih htl)
    | null => simp [isStrJ] at hhd
    | bool b => simp [isStrJ] at hhd
    | int n => simp [isStrJ] at hhd
    | float q => simp [isStrJ] at hhd
    | arr l2 => simp [isStrJ] at hhd
    | obj fs => simp [isStrJ] at hhd

/-- C8: normalizing the serialization of a JSON object that already matches
the canonical schema returns all six fields Python-equal to the input (list
order preserved; item dicts compare key-order-insensitively), with validity
true and no violations. -/
theorem normalize_roundtrip (cs : List Char) (o : List (String × Json))
    (hload : jsonLoads (stripChars cs) = some (Json.obj o))
    (hcan : matchesCanonicalSchema o = true) :
    (∃ v w, alookup (normalize cs) "title" = some v ∧ alookup o "title" = some w ∧ PyEq v w) ∧
    (∃ v w, alookup (normalize cs) "summary" = some v ∧ alookup o "summary" = some w ∧ PyEq v w) ∧
    (∃ v w, alookup (normalize cs) "steps" = some v ∧ alookup o "steps" = some w ∧ PyEq v w) ∧
    (∃ v w, alookup (normalize cs) "artifacts" = some v ∧ alookup o "artifacts" = some w ∧ PyEq v w) ∧
    (∃ v w, alookup (normalize cs) "risks" = some v ∧ alookup o "risks" = some w ∧ PyEq v w) ∧
    (∃ v w, alookup (normalize cs) "next" = some v ∧ alookup o "next" = some w ∧ PyEq v w) ∧
    alookup (normalize cs) "_valid" = some (Json.bool true) ∧
    alookup (normalize cs) "_violations" = some (Json.arr []) := by
  simp only [matchesCanonicalSchema, Bool.and_eq_true] at hcan
  obtain ⟨⟨⟨⟨⟨htitle, hsummary⟩, hsteps⟩, harts⟩, hrisks⟩, hnext⟩ := hcan
  obtain ⟨t, ht⟩ := lookupIs_strE htitle
  obtain ⟨s, hs⟩ := lookupIs_strE hsummary
  obtain ⟨ls, hst, hstall⟩ := lookupArrAllE hsteps
  obtain ⟨la, har, haall⟩ := lookupArrAllE harts
  obtain ⟨lr, hri, hrall⟩ := lookupArrAllE hrisks
  obtain ⟨ln, hnx, hnall⟩ := lookupArrAllE hnext
  have hne : o ≠ [] := by
    intro h0
    rw [h0] at ht
    cases ht
  rw [normalize_structured hload hne]
  unfold normalizeWithObj
  dsimp only
  rw [coerceToSchema_canonical o t s ls la lr ln ht hs hst har hri hnx,
    validateSchema_coerced t s ls la lr ln]
  refine ⟨⟨Json.str t, Json.str t, rfl, ht, PyEq.str t⟩,
    ⟨Json.str s, Json.str s, rfl, hs, PyEq.str s⟩,
    ⟨Json.arr (coerceSteps ls), Json.arr ls, rfl, hst, coerceStepsFrom_pyEq ls 0 hstall⟩,
    ⟨Json.arr (coerceArtifacts la), Json.arr la, rfl, har, coerceArtifacts_pyEq la haall⟩,
    ⟨Json.arr (coerceRisks lr), Json.arr lr, rfl, hri, coerceRisks_pyEq lr hrall⟩,
    ⟨Json.arr (ln.map (fun n => Json.str (pyStr n))), Json.arr ln, rfl, hnx, mapStr_pyEq ln hnall⟩,
    rfl, rfl⟩

/-- Witness for C8 at a concrete canonical JSON text. -/
theorem normalize_roundtrip_witness :
    alookup (normalize canonicalText) "_valid" = some (Json.bool true) ∧
    (∃ v w, alookup (normalize canonicalText) "steps" = some v ∧
      alookup [("title", Json.str "t"), ("summary", Json.str "s"),
        ("steps", Json.arr [Json.obj [("action", Json.str "a"), ("step", Json.int 1),
          ("details", Json.str "d")]]),
        ("artifacts", Json.arr []), ("risks", Json.arr []),
        ("next", Json.arr [Json.str "n"])] "steps" = some w ∧ PyEq v w) := by
  have h := normalize_roundtrip canonicalText
    [("title", Json.str "t"), ("summary", Json.str "s"),
     ("steps", Json.arr [Json.obj [("action", Json.str "a"), ("step", Json.int 1),
       ("details", Json.str "d")]]),
     ("artifacts", Json.arr []), ("risks", Json.arr []),
     ("next", Json.arr [Json.str "n"])] rfl rfl
  exact ⟨h.2.2.2.2.2.2.1, h.2.2.1⟩

theorem compressHistory_length (msgs : List ChatMessage) :
    (compressHistory msgs).length = msgs.length - msgs.length / 2 + 1 := by
  simp [compressHistory]

/-- C9: whenever an append pushes the stored count `n` above the window, the
stored list becomes one synthetic `system` message — the join of the oldest
`n / 2` messages each rendered as a role tag plus the first 80 characters of
its content, behind the summary marker — followed by the newest `n - n / 2`
messages verbatim and in order; in particular a 21st append leaves exactly 12
messages. -/
theorem addMessage_compacts (msgs : List ChatMessage) (role content : String)
    (h : MAX_HISTORY < (msgs ++ [(⟨role, content⟩ : ChatMessage)]).length) :
    ∃ summary : ChatMessage,
      summary.role = "system" ∧
      summary.content = "[이전 대화 요약]" ++ String.mk [Char.ofNat 10] ++
        String.intercalate (String.mk [Char.ofNat 10])
          (((msgs ++ [(⟨role, content⟩ : ChatMessage)]).take ((msgs ++ [(⟨role, content⟩ : ChatMessage)]).length / 2)).map
            summarizeLine) ∧
      addMessage msgs role content =
        summary :: (msgs ++ [(⟨role, content⟩ : ChatMessage)]).drop ((msgs ++ [(⟨role, content⟩ : ChatMessage)]).length / 2) ∧
      (addMessage msgs role content).length =
        (msgs ++ [(⟨role, content⟩ : ChatMessage)]).length - (msgs ++ [(⟨role, content⟩ : ChatMessage)]).length / 2 + 1 ∧
      ((msgs ++ [(⟨role, content⟩ : ChatMessage)]).length = 21 → (addMessage msgs role content).length = 12) := by
  have hadd : addMessage msgs role content = compressHistory (msgs ++ [(⟨role, content⟩ : ChatMessage)]) := by
    unfold addMessage
    rw [if_pos h]
  refine ⟨{ role := "system",
            content := "[이전 대화 요약]" ++ String.mk [Char.ofNat 10] ++
              String.intercalate (String.mk [Char.ofNat 10])
                (((msgs ++ [(⟨role, content⟩ : ChatMessage)]).take
                  ((msgs ++ [(⟨role, content⟩ : ChatMessage)]).length / 2)).map summarizeLine) },
    rfl, rfl, ?_, ?_, ?_⟩
  · rw [hadd]
    rfl
  · rw [hadd, compressHistory_length]
  · intro h21
    rw [hadd, compressHistory_length, h21]

/-- Witness for C9: appending a 21st message to a 20-message session leaves 12
stored messages, the first being the `system` summary. -/
theorem addMessage_compacts_witness :
    (addMessage (List.replicate 20 wUserMsg) "assistant" "y").length = 12 ∧
    (addMessage (List.replicate 20 wUserMsg) "assistant" "y").head?.map ChatMessage.role =
      some "system" := by
  obtain ⟨s, hrole, _, heq, _, h21⟩ :=
    addMessage_compacts (List.replicate 20 wUserMsg) "assistant" "y" (by decide)
  constructor
  · exact h21 (by decide)
  · rw [heq]
    simp [hrole]

theorem addMessage_length_le (msgs : List ChatMessage) (role content : String)
    (h : msgs.length ≤ MAX_HISTORY) :
    (addMessage msgs role content).length ≤ MAX_HISTORY := by
  unfold addMessage
  by_cases hc : MAX_HISTORY < (msgs ++ [(⟨role, content⟩ : ChatMessage)]).length
  · rw [if_pos hc, compressHistory_length]
    simp only [List.length_append, List.length_cons, List.length_nil, MAX_HISTORY] at *
    omega
  · rw [if_neg hc]
    simp only [List.length_append, List.length_cons, List.length_nil, MAX_HISTORY] at *
    omega

theorem foldl_addMessage_le (ops : List (String × String)) :
    ∀ l : List ChatMessage, l.length ≤ MAX_HISTORY →
      (ops.foldl (fun acc rc => addMessage acc rc.1 rc.2) l).length ≤ MAX_HISTORY := by
  induction ops with
  | nil =>
    intro l h
    simpa using h
  | cons op rest ih =>
    intro l h
    exact ih _ (addMessage_length_le l op.1 op.2 h)

/-- C10: starting from an empty session, the stored count after every
`add_message` never exceeds the 20-message window; compaction fires exactly
when an append reaches 21 messages (a 20-message store collapses to 12, a
smaller store just appends). -/
theorem addMessage_history_bound (ops : List (String × String)) (msgs : List ChatMessage)
    (role content : String) :
    (ops.foldl (fun acc rc => addMessage acc rc.1 rc.2) []).length ≤ MAX_HISTORY ∧
    (msgs.length = MAX_HISTORY → (addMessage msgs role content).length = 12) ∧
    (msgs.length < MAX_HISTORY → addMessage msgs role content = msgs ++ [(⟨role, content⟩ : ChatMessage)]) := by
  refine ⟨foldl_addMessage_le ops [] (by simp), ?_, ?_⟩
  · intro h20
    unfold addMessage
    rw [if_pos (by simp [h20, MAX_HISTORY]), compressHistory_length]
    simp [h20, MAX_HISTORY]
  · intro hlt
    unfold addMessage
    rw [if_neg (by simp only [List.length_append, List.length_cons, List.length_nil]; omega)]

/-- Witness for C10: a 25-append sequence ends with at most 20 stored
messages; a full window collapses to 12 on the next append; a 5-message store
just appends. -/
theorem addMessage_history_bound_witness :
    ((List.replicate 25 ("user", "m")).foldl (fun acc rc => addMessage acc rc.1 rc.2) []).length ≤
      MAX_HISTORY ∧
    (addMessage (List.replicate 20 wUserMsg) "user" "y").length = 12 ∧
    addMessage (List.replicate 5 wUserMsg) "user" "y" =
      List.replicate 5 wUserMsg ++ [{ role := "user", content := "y" }] := by
  refine ⟨(addMessage_history_bound (List.replicate 25 ("user", "m")) [] "" "").1,
    (addMessage_history_bound [] (List.replicate 20 wUserMsg) "user" "y").2.1 (by decide),
    (addMessage_history_bound [] (List.replicate 5 wUserMsg) "user" "y").2.2 (by decide)⟩

/-! ## Claim C1 — routing-chain order, failover counting and the usage log -/

theorem routeRecordCost_usageLog (p : Provider) (prompt reply : String) (st : RouterState)
    (today : String) : (routeRecordCost p prompt reply st today).usageLog = st.usageLog := by
  unfold routeRecordCost recordCost
  split <;> rfl

/-- The main loop on a chain `[a, b, c]` with a unavailable, b erroring and c
succeeding: an early success return attributed to c with one failover. -/
theorem routeMainLoop_skip_fail_ok (cfg : RouterConfig) (providers : List (String × Provider))
    (callFn : String → CallResult) (taskClass agentId prompt : String) (now : Int)
    (today : String) (chainFull : List String) (st0 : RouterState)
    (a b c : String) (pA pB pC : Provider) (e reply : String)
    (hthresh : 2 ≤ cfg.consecutiveFailThreshold)
    (hA : alookup providers a = some pA)
    (hB : alookup providers b = some pB)
    (hC : alookup providers c = some pC)
    (hAavail : isProviderAvailable cfg pA st0 now = false)
    (hBavail : isProviderAvailable cfg pB st0 now = true)
    (hBtier : pB.tier = "free")
    (hCtier : pC.tier = "free")
    (hBcall : callFn b = .err e)
    (hCcall : callFn c = .ok reply)
    (hCavail : isProviderAvailable cfg pC (markFailed st0 (provFailKey pB) now) now = true) :
    routeMainLoop cfg providers callFn false taskClass agentId prompt now today chainFull
      [a, b, c] { st := st0 } =
      .inr
        ({ reply := reply, provider := c, model := pC.model, tier := "free",
           taskClass := taskClass, latencyMs := 0, retries := 1, failoverCount := 1,
           escalated := false, error := none, normalized := none },
         logUsage
           (routeRecordCost pC prompt reply
             (clearFailure (markFailed st0 (provFailKey pB) now) (provFailKey pC)) today)
           { agentId := agentId, provider := c, model := pC.model, tier := "free",
             taskClass := taskClass, success := true, latencyMs := 0, retries := 1,
             failoverCount := 1, escalated := false, error := none }) := by
  simp only [routeMainLoop]
  rw [hA]
  dsimp only
  rw [if_pos hAavail]
  rw [hB]
  dsimp only
  rw [if_neg (by simp [hBavail]), hBtier]
  have hcbB : checkBudget cfg st0 today "free" = (st0, true, none) := rfl
  rw [hcbB]
  dsimp only
  rw [if_neg (by simp : ¬ (true = false))]
  rw [hBcall]
  dsimp only
  rw [if_neg (show ¬ (cfg.consecutiveFailThreshold ≤ 0 + 1 ∧ True) from
    fun hc => absurd hc.1 (by omega))]
  rw [hC]
  dsimp only
  rw [if_neg (by simp [hCavail]), hCtier]
  have hcbC : checkBudget cfg (markFailed st0 (provFailKey pB) now) today "free" =
      (markFailed st0 (provFailKey pB) now, true, none) := rfl
  rw [hcbC]
  dsimp only
  rw [if_neg (by simp : ¬ (true = false))]
  rw [hCcall]
  dsimp only
  rw [if_neg (by simp)]
  rfl

/-- C1: for a routing chain `[a, b, c]` where a is registered but unavailable
(skipped by the availability check), b's call raises a transport error and
c's call succeeds, `route` returns provider c with `failover_count = 1` — the
unavailability skip is not counted, only b's failure — and appends exactly
one usage-log record for the request, successful and attributed to c.  The
`2 ≤ consecutive_fail_threshold` hypothesis (default 3) keeps b's single
failure below the hard-failure escalation trigger, as in the claimed
scenario. -/
theorem route_chain_order (cfg : RouterConfig) (providers : List (String × Provider))
    (callFn : String → CallResult) (taskClass prompt agentId : String) (st0 : RouterState)
    (now : Int) (today : String) (a b c : String) (pA pB pC : Provider) (e reply : String)
    (hchain : alookup cfg.routingChain taskClass = some [a, b, c])
    (hthresh : 2 ≤ cfg.consecutiveFailThreshold)
    (hA : alookup providers a = some pA)
    (hB : alookup providers b = some pB)
    (hC : alookup providers c = some pC)
    (hAavail : isProviderAvailable cfg pA st0 now = false)
    (hBavail : isProviderAvailable cfg pB st0 now = true)
    (hBtier : pB.tier = "free")
    (hCtier : pC.tier = "free")
    (hBcall : callFn b = .err e)
    (hCcall : callFn c = .ok reply)
    (hCavail : isProviderAvailable cfg pC (markFailed st0 (provFailKey pB) now) now = true) :
    (route cfg providers callFn taskClass prompt agentId "normal" false st0 now today).1.provider = c ∧
    (route cfg providers callFn taskClass prompt agentId "normal" false st0 now today).1.failoverCount = 1 ∧
    (route cfg providers callFn taskClass prompt agentId "normal" false st0 now today).1.error = none ∧
    ∃ entry : UsageEntry,
      (route cfg providers callFn taskClass prompt agentId "normal" false st0 now today).2.usageLog =
        st0.usageLog ++ [entry] ∧
      entry.success = true ∧ entry.provider = c ∧ entry.failoverCount = 1 := by
  have hroute : route cfg providers callFn taskClass prompt agentId "normal" false st0 now today =
      ({ reply := reply, provider := c, model := pC.model, tier := "free",
         taskClass := taskClass, latencyMs := 0, retries := 1, failoverCount := 1,
         escalated := false, error := none, normalized := none },
       logUsage
         (routeRecordCost pC prompt reply
           (clearFailure (markFailed st0 (provFailKey pB) now) (provFailKey pC)) today)
         { agentId := agentId, provider := c, model := pC.model, tier := "free",
           taskClass := taskClass, success := true, latencyMs := 0, retries := 1,
           failoverCount := 1, escalated := false, error := none }) := by
    unfold route
    dsimp only
    rw [hchain]
    simp only [Option.getD_some]
    rw [if_neg (by decide : ¬ ("normal" : String) = "critical")]
    rw [routeMainLoop_skip_fail_ok cfg providers callFn taskClass agentId prompt now today
      [a, b, c] st0 a b c pA pB pC e reply hthresh hA hB hC hAavail hBavail hBtier hCtier
      hBcall hCcall hCavail]
  rw [hroute]
  refine ⟨rfl, rfl, rfl,
    ⟨{ agentId := agentId, provider := c, model := pC.model, tier := "free",
       taskClass := taskClass, success := true, latencyMs := 0, retries := 1,
       failoverCount := 1, escalated := false, error := none }, ?_, rfl, rfl, rfl⟩⟩
  show (routeRecordCost pC prompt reply
      (clearFailure (markFailed st0 (provFailKey pB) now) (provFailKey pC)) today).usageLog ++ _ =
    st0.usageLog ++ _
  rw [routeRecordCost_usageLog]
  rfl

/-- Witness for C1: the concrete chain `[A, B, C]` with A lacking a
credential, B raising and C succeeding. -/
theorem route_chain_order_witness :
    (route wChainConfig wRegistry wCallFn "general" "p" "ag" "normal" false wEnvState
      1000 "2026-10-12").1.provider = "C" ∧
    (route wChainConfig wRegistry wCallFn "general" "p" "ag" "normal" false wEnvState
      1000 "2026-10-12").1.failoverCount = 1 ∧
    ∃ entry : UsageEntry,
      (route wChainConfig wRegistry wCallFn "general" "p" "ag" "normal" false wEnvState
        1000 "2026-10-12").2.usageLog = wEnvState.usageLog ++ [entry] ∧
      entry.success = true ∧ entry.provider = "C" := by
  have h := route_chain_order wChainConfig wRegistry wCallFn "general" "p" "ag" wEnvState
    1000 "2026-10-12" "A" "B" "C" wProvA wProvB wProvC "boom" "hi"
    rfl (by decide) rfl rfl rfl rfl rfl rfl rfl rfl rfl rfl
  obtain ⟨h1, h2, h3, entry, h4, h5, h6, h7⟩ := h
  exact ⟨h1, h2, entry, h4, h5, h6⟩

/-! ## Claim C3 — escalation-chain construction -/

/-- C3 counterexample: a registered low-cost provider (`cheap`, tier at the
default escalation target `low_cost`, not in the base chain) is NOT appended
by `_append_escalation_chain` when escalation triggers on hard failures
(current tier `free`): the tier loop's preceding skip excludes every tier at
or above the target, so the list stays empty. -/
theorem appendEscalation_missing_lowcost :
    alookup escProviders "cheap" = some cheapProv ∧
    cheapProv.tier = "low_cost" ∧
    defaultConfig.autoEscalateToTier = "low_cost" ∧
    "cheap" ∉ (["x", "y", "z"] : List String) ∧
    appendEscalationChain defaultConfig escProviders [] "free" ["x", "y", "z"] = [] := by
  refine ⟨rfl, rfl, rfl, by decide, rfl⟩

theorem escTierFold_noop (tried : List String) :
    ∀ (providers : List (String × Provider)) (esc : List String),
      providers.foldl (fun esc2 np =>
        if np.2.tier ∈ tiersOrder.drop 1 then esc2
        else if np.2.tier ∈ tiersOrder.drop 1 ∧ np.1 ∉ esc2 ∧ np.1 ∉ tried then esc2 ++ [np.1]
        else esc2) esc = esc := by
  intro providers
  induction providers with
  | nil =>
    intro esc
    rfl
  | cons np rest ih =>
    intro esc
    rw [List.foldl_cons]
    by_cases hmem : np.2.tier ∈ tiersOrder.drop 1
    · rw [if_pos hmem]
      exact ih esc
    · rw [if_neg hmem, if_neg (fun hc => hmem hc.1)]
      exact ih esc

theorem premiumFoldClosed :
    ∀ (providers : List (String × Provider)) (esc : List String),
      (providers.map Prod.fst).Nodup →
      providers.foldl
        (fun esc2 np => if np.2.tier = "premium" ∧ np.1 ∉ esc2 then esc2 ++ [np.1] else esc2)
        esc =
      esc ++ (providers.filter (fun np => np.2.tier = "premium" ∧ np.1 ∉ esc)).map Prod.fst := by
  intro providers
  induction providers with
  | nil =>
    intro esc _
    simp
  | cons np rest ih =>
    intro esc hnodup
    rw [List.map_cons, List.nodup_cons] at hnodup
    obtain ⟨hnp, hrest⟩ := hnodup
    rw [List.foldl_cons, List.filter_cons]
    by_cases hc : np.2.tier = "premium" ∧ np.1 ∉ esc
    · rw [if_pos hc, if_pos (decide_eq_true hc), ih (esc ++ [np.1]) hrest]
      have hcong : rest.filter (fun x => x.2.tier = "premium" ∧ x.1 ∉ esc ++ [np.1]) =
          rest.filter (fun x => x.2.tier = "premium" ∧ x.1 ∉ esc) := by
        apply List.filter_congr
        intro x hx
        have hxne : x.1 ≠ np.1 := by
          intro heq
          exact hnp (heq ▸ List.mem_map.mpr ⟨x, hx, rfl⟩)
        simp [List.mem_append, hxne]
      rw [hcong]
      simp
    · rw [if_neg hc, if_neg (by simpa using hc), ih esc hrest]

/-- The escalation loop of `route` never attempts a name in the base chain:
running it on any escalation list is the same as running it on the list with
base-chain names removed. -/
theorem routeEscLoop_filter (cfg : RouterConfig) (providers : List (String × Provider))
    (callFn : String → CallResult) (rs : Bool) (tc aid pr : String) (now : Int)
    (today : String) (chain : List String) :
    ∀ (esc : List String) (acc : RouteAcc),
      routeEscLoop cfg providers callFn rs tc aid pr now today chain esc acc =
      routeEscLoop cfg providers callFn rs tc aid pr now today chain
        (esc.filter (fun n => n ∉ chain)) acc := by
  intro esc
  induction esc with
  | nil =>
    intro acc
    rfl
  | cons hd tl ih =>
    intro acc
    by_cases hmem : hd ∈ chain
    · have hf : (hd :: tl).filter (fun n => n ∉ chain) = tl.filter (fun n => n ∉ chain) := by
        simp [hmem]
      rw [hf, ← ih acc]
      simp only [routeEscLoop]
      rw [if_pos hmem]
    · have hf : (hd :: tl).filter (fun n => n ∉ chain) =
          hd :: tl.filter (fun n => n ∉ chain) := by
        simp [hmem]
      rw [hf]
      simp only [routeEscLoop]
      rw [if_neg hmem, if_neg hmem]
      simp only [ih]

/-- C3 (amended): when escalation triggers with the default target tier
`low_cost` and current tier `free` (the hard-failure trigger), the tier loop
of `_append_escalation_chain` appends no provider — the preceding skip
excludes every tier at or above the target — and the list gains only the
premium fallback: every premium provider not already listed, regardless of
base-chain membership.  A base-chain name is nevertheless never attempted a
second time, because the escalation loop of `route` skips names in the base
chain. -/
theorem escalation_chain_amended (cfg : RouterConfig) (providers : List (String × Provider))
    (esc tried : List String)
    (htar : cfg.autoEscalateToTier = "low_cost")
    (hlen : esc.length ≤ cfg.premiumEscalateAfter)
    (hnodup : (providers.map Prod.fst).Nodup) :
    appendEscalationChain cfg providers esc "free" tried =
      esc ++ (providers.filter (fun np => np.2.tier = "premium" ∧ np.1 ∉ esc)).map Prod.fst ∧
    ∀ (callFn : String → CallResult) (rs : Bool) (tc aid pr : String) (now : Int)
      (today : String) (chain esc2 : List String) (acc : RouteAcc),
      routeEscLoop cfg providers callFn rs tc aid pr now today chain esc2 acc =
      routeEscLoop cfg providers callFn rs tc aid pr now today chain
        (esc2.filter (fun n => n ∉ chain)) acc := by
  constructor
  · unfold appendEscalationChain
    rw [htar]
    dsimp only
    have h1 : tierIdx "free" = 0 := by decide
    have h2 : (if ("low_cost" : String) ∈ tiersOrder then tiersOrder.indexOf "low_cost" else 1) = 1 := by
      decide
    rw [h1, h2]
    have h3 : max 1 (0 + 1) = 1 := rfl
    rw [h3]
    rw [escTierFold_noop tried providers esc]
    rw [if_pos hlen]
    exact premiumFoldClosed providers esc hnodup
  · intro callFn rs tc aid pr now today chain esc2 acc
    exact routeEscLoop_filter cfg providers callFn rs tc aid pr now today chain esc2 acc

/-- Witness for C3 (amended) at a concrete registry with a free, a low-cost
and a premium provider. -/
theorem escalation_chain_amended_witness :
    appendEscalationChain defaultConfig wEscRegistry [] "free" ["x"] = ["prem"] ∧
    routeEscLoop defaultConfig wEscRegistry wCallFn false "general" "" "" 0 "2026-10-12"
      ["x"] ["x", "prem"] { st := emptyState } =
    routeEscLoop defaultConfig wEscRegistry wCallFn false "general" "" "" 0 "2026-10-12"
      ["x"] (["x", "prem"].filter (fun n => n ∉ (["x"] : List String))) { st := emptyState } := by
  have h := escalation_chain_amended defaultConfig wEscRegistry [] ["x"] rfl (by decide) (by decide)
  refine ⟨?_, h.2 wCallFn false "general" "" "" 0 "2026-10-12" ["x"] ["x", "prem"]
    { st := emptyState }⟩
  rw [h.1]
  rfl

end AgentFactory
